import Mathlib


/-!
# events-are-square: JSON event feed to iCalendar

A shallow embedding of `events.go` and of the library routines it calls
(`time.Unix`, `Time.UTC`, `Time.Format`, `strftime.Format`, `json.Unmarshal`),
followed by the properties of the timestamp formatter, the calendar renderer,
the decoder and the HTTP handler.

Go's `int` is taken to be 64 bits wide (the timestamps of the feed are
millisecond epochs, which need more than 32 bits).
-/

namespace Events

/-! ## Machine integers -/

/-- The values of Go's `int` and `int64`. -/
def isInt64 (x : Int) : Prop := -9223372036854775808 ≤ x ∧ x ≤ 9223372036854775807

instance (x : Int) : Decidable (isInt64 x) := by
  unfold isInt64; exact inferInstance

/-- Two's complement wrap-around of a mathematical integer to `int64`. -/
def wrapInt64 (x : Int) : Int :=
  (x + 9223372036854775808) % 18446744073709551616 - 9223372036854775808

/-- Conversion `uint64(x)` of an `int64`. -/
def toUint64 (x : Int) : Nat := (x % 18446744073709551616).toNat

/-! ## Package `time` of the Go standard library -/

def secondsPerMinute : Nat := 60
def secondsPerHour : Nat := 60 * 60
def secondsPerDay : Nat := 24 * 3600
def daysPer400Years : Nat := 365 * 400 + 97
def daysPer100Years : Nat := 365 * 100 + 24
def daysPer4Years : Nat := 365 * 4 + 1

/-- The year of the zero of the absolute time scale used by the date routines. -/
def absoluteZeroYear : Int := -292277022399

/-- Seconds from the zero `Time` (January 1, year 1) to the Unix epoch. -/
def unixToInternal : Int := (1969 * 365 + 1969 / 4 - 1969 / 100 + 1969 / 400) * 86400

/-- Seconds from the absolute zero to the zero `Time`:
`(1 - absoluteZeroYear) * 365.2425 * secondsPerDay`. -/
def internalToAbsolute : Int := 292277022400 * 31556952

/-- A `time.Time` in the UTC location, second resolution: `sec` counts the
seconds since January 1, year 1 00:00:00 UTC. -/
structure Time where
  sec : Int
deriving DecidableEq, Repr

/-- Go `time.Unix(sec, 0)` followed by `.UTC()`. -/
def Unix (sec : Int) : Time := ⟨wrapInt64 (sec + unixToInternal)⟩

/-- Go `Time.abs` for a UTC time: seconds since the absolute zero, as `uint64`. -/
def Time.abs (t : Time) : Nat := toUint64 (wrapInt64 (t.sec + internalToAbsolute))

/-- Go `isLeap`; `%` is Go's truncated remainder. -/
def isLeap (year : Int) : Bool :=
  year.tmod 4 == 0 && (year.tmod 100 != 0 || year.tmod 400 == 0)

/-- Go `daysBefore`: `daysBefore[m]` counts the days of a non-leap year before month `m+1`. -/
def daysBefore : List Nat :=
  [0, 31, 31 + 28, 31 + 28 + 31, 31 + 28 + 31 + 30, 31 + 28 + 31 + 30 + 31,
   31 + 28 + 31 + 30 + 31 + 30, 31 + 28 + 31 + 30 + 31 + 30 + 31,
   31 + 28 + 31 + 30 + 31 + 30 + 31 + 31, 31 + 28 + 31 + 30 + 31 + 30 + 31 + 31 + 30,
   31 + 28 + 31 + 30 + 31 + 30 + 31 + 31 + 30 + 31,
   31 + 28 + 31 + 30 + 31 + 30 + 31 + 31 + 30 + 31 + 30,
   31 + 28 + 31 + 30 + 31 + 30 + 31 + 31 + 30 + 31 + 30 + 31]

/-- First half of Go `absDate`: the year and the zero-based day of the year. -/
def absYearDay (abs : Nat) : Int × Nat :=
  let d := abs / secondsPerDay
  -- 400-year cycles
  let n := d / daysPer400Years
  let y := 400 * n
  let d := d - daysPer400Years * n
  -- 100-year cycles, cut off at 3
  let n := d / daysPer100Years
  let n := n - n / 4
  let y := y + 100 * n
  let d := d - daysPer100Years * n
  -- 4-year cycles
  let n := d / daysPer4Years
  let y := y + 4 * n
  let d := d - daysPer4Years * n
  -- years within a 4-year cycle, cut off at 3
  let n := d / 365
  let n := n - n / 4
  let y := y + n
  let d := d - 365 * n
  ((y : Int) + absoluteZeroYear, d)

/-- Second half of Go `absDate`: month (1..12) and day of the month from the
zero-based day of the year; `leap` is the value of `isLeap(year)`. -/
def monthDay (leap : Bool) (yday : Nat) : Nat × Nat :=
  if leap && yday == 31 + 29 - 1 then (2, 29)
  else
    let day := if leap && yday > 31 + 29 - 1 then yday - 1 else yday
    let month := day / 31
    let stop := daysBefore.getD (month + 1) 0
    if day ≥ stop then (month + 1 + 1, day - stop + 1)
    else (month + 1, day - daysBefore.getD month 0 + 1)

/-- Go `absDate(abs, true)`: year, month, day. -/
def absDate (abs : Nat) : Int × Nat × Nat :=
  let yd := absYearDay abs
  (yd.1, monthDay (isLeap yd.1) yd.2)

/-- Go `absClock`: hour, minute, second. -/
def absClock (abs : Nat) : Nat × Nat × Nat :=
  let sec := abs % secondsPerDay
  let hour := sec / secondsPerHour
  let sec := sec - hour * secondsPerHour
  let min := sec / secondsPerMinute
  let sec := sec - min * secondsPerMinute
  (hour, min, sec)

/-- The digit loop of Go `appendInt`, least significant digit first; the
buffer of the source holds 20 bytes, which is the fuel here. -/
def digitsRev : Nat → Nat → List Char
  | 0, _ => []
  | fuel + 1, u =>
    if u ≥ 10 then Char.ofNat (48 + u % 10) :: digitsRev fuel (u / 10)
    else [Char.ofNat (48 + u)]

/-- Go `appendInt(b, x, width)` on an empty `b`: a minus sign for a negative
`x`, then the decimal digits of `|x|`, zero-padded on the left to `width`. -/
def appendInt (x : Int) (width : Nat) : List Char :=
  let ds := (digitsRev 20 x.natAbs).reverse
  (if x < 0 then ['-'] else []) ++ List.replicate (width - ds.length) '0' ++ ds

/-- What `strftime.Format("%Y%m%dT%H%M%SZ", t)` returns: the layout is walked
left to right, `%Y %m %d %H %M %S` are replaced by `t.Format` of the Go layouts
`2006 01 02 15 04 05` (year padded to 4 digits, the others to 2) and the other
bytes, `T` and `Z`, are copied. -/
def strftimeFormat (t : Time) : String :=
  let ymd := absDate t.abs
  let hms := absClock t.abs
  String.mk (appendInt ymd.1 4 ++ appendInt ymd.2.1 2 ++ appendInt ymd.2.2 2 ++ ['T']
    ++ appendInt hms.1 2 ++ appendInt hms.2.1 2 ++ appendInt hms.2.2 2 ++ ['Z'])

/-! ## events.go -/

/-- Source `to8601`: milliseconds since the epoch to `YYYYMMDDTHHMMSSZ` in UTC.
`s /= 1000` is Go's integer division, which truncates toward zero. -/
def to8601 (t : Int) : String :=
  let s := t
  let s := s.tdiv 1000
  let ts := Unix s
  strftimeFormat ts

/-! ## Package `encoding/json` of the Go standard library -/

/-- A JSON text that follows the grammar, by its syntax tree. `int i` is a
number literal without fraction and exponent part, `float lit` any other number
literal, kept as it is written. The members of an object keep the order and
the duplicates of the text. -/
inductive JSON where
  | null
  | bool (b : Bool)
  | int (i : Int)
  | float (lit : String)
  | str (s : String)
  | arr (elems : List JSON)
  | obj (members : List (String × JSON))

/-- The values of Go's `error` that reach `fetchEvents`. -/
inductive Error where
  /-- `http.Get` could not obtain a response. -/
  | transport (msg : String)
  /-- `ioutil.ReadAll` could not read the body. -/
  | read (msg : String)
  /-- `json.SyntaxError`: the bytes are not a JSON text. -/
  | malformed (msg : String)
  /-- `json.UnmarshalTypeError` with its fields `Value` and `Type`: JSON `value`
  cannot be stored in a Go value of type `goType`. The fields `Offset`, `Struct`
  and `Field` of the Go error are not kept. -/
  | unmarshalType (value : String) (goType : String)
deriving DecidableEq, Repr

/-- The name of the kind of a JSON value, as `UnmarshalTypeError.Value` reports it. -/
def JSON.kindName : JSON → String
  | .null => "null"
  | .bool _ => "bool"
  | .int _ => "number"
  | .float _ => "number"
  | .str _ => "string"
  | .arr _ => "array"
  | .obj _ => "object"

/-- Store a JSON value in a Go `string`: `null` leaves it alone, a string is
copied, anything else is a type error that leaves it alone. -/
def storeString (cur : String) (v : JSON) : String × Option Error :=
  match v with
  | .null => (cur, none)
  | .str s => (s, none)
  | _ => (cur, some (.unmarshalType v.kindName "string"))

/-- The nesting limit of the scanner of `encoding/json`, `maxNestingDepth`. -/
def maxNestingDepth : Nat := 10000

/-- The arrays and objects of the document are nested at most `n` deep; the
scanner counts one level for every array or object that is open. -/
def JSON.nestedWithin : Nat → JSON → Bool
  | _, .null => true
  | _, .bool _ => true
  | _, .int _ => true
  | _, .float _ => true
  | _, .str _ => true
  | 0, .arr _ => false
  | 0, .obj _ => false
  | n + 1, .arr elems => elems.all (fun x => JSON.nestedWithin n x)
  | n + 1, .obj members => members.all (fun kv => JSON.nestedWithin n kv.2)

/-- Store a JSON value in a Go `int`: the literal goes through
`strconv.ParseInt(s, 10, 64)`, so it has to be an integer literal in range;
the error for a number that is not names the literal (an integer literal out
of range is written in decimal, without leading zeros). -/
def storeInt (cur : Int) (v : JSON) : Int × Option Error :=
  match v with
  | .null => (cur, none)
  | .int i =>
    if -9223372036854775808 ≤ i ∧ i ≤ 9223372036854775807 then (i, none)
    else (cur, some (.unmarshalType ("number " ++ toString i) "int"))
  | .float lit => (cur, some (.unmarshalType ("number " ++ lit) "int"))
  | _ => (cur, some (.unmarshalType v.kindName "int"))

/-- Store a JSON value in a Go `bool`. -/
def storeBool (cur : Bool) (v : JSON) : Bool × Option Error :=
  match v with
  | .null => (cur, none)
  | .bool b => (b, none)
  | _ => (cur, some (.unmarshalType v.kindName "bool"))

/-- A field of a Go struct as the decoder sees it: the name of its `json` tag
and the routine that stores a JSON value in it. -/
structure Field (σ : Type) where
  name : String
  store : σ → JSON → σ × Option Error

/-- A field built from its accessors and the store routine of its type. -/
def Field.of {σ α : Type} (name : String) (get : σ → α) (set : σ → α → σ)
    (store : α → JSON → α × Option Error) : Field σ :=
  ⟨name, fun s v => let r := store (get s) v; (set s r.1, r.2)⟩

/-- Simple case folding restricted to what can meet an ASCII name: upper and
lower case letters, the Kelvin sign (with `k`) and the long s (with `s`). -/
def foldRune (c : Char) : Char :=
  if c = Char.ofNat 0x212A then 'k'
  else if c = Char.ofNat 0x17F then 's'
  else if 'A' ≤ c ∧ c ≤ 'Z' then Char.ofNat (c.toNat + 32)
  else c

/-- Go `bytes.EqualFold` for an ASCII field name. -/
def equalFold (name key : String) : Bool :=
  name.data.map foldRune == key.data.map foldRune

/-- The field an object key selects: the field whose name is the key, else
the first field whose name equals the key under case folding. -/
def findField {σ : Type} (fields : List (Field σ)) (key : String) : Option (Field σ) :=
  match fields.find? (fun f => f.name == key) with
  | some f => some f
  | none => fields.find? (fun f => equalFold f.name key)

/-- The first error is the one `Unmarshal` reports; decoding goes on after it. -/
def saveError (saved new : Option Error) : Option Error :=
  match saved with
  | some e => some e
  | none => new

/-- Store a JSON value in a Go struct: `null` leaves it alone; the members of
an object are stored one after the other in the fields their keys select, and
the members that select no field are skipped; anything else is a type error. -/
def storeStruct {σ : Type} (fields : List (Field σ)) (goType : String) (cur : σ) (v : JSON) :
    σ × Option Error :=
  match v with
  | .null => (cur, none)
  | .obj members =>
    members.foldl (fun acc kv =>
      match findField fields kv.1 with
      | none => acc
      | some f => let r := f.store acc.1 kv.2; (r.1, saveError acc.2 r.2)) (cur, none)
  | _ => (cur, some (.unmarshalType v.kindName goType))

/-- The elements of an array stored one after the other in the backing array
of a slice: the element of index `i` is decoded into the value the backing
array holds at `i`, and into a zero value beyond its written part, where the
memory is fresh. -/
def storeElems {α : Type} (zero : α) (store : α → JSON → α × Option Error) :
    List α → List JSON → List (α × Option Error)
  | _, [] => []
  | [], x :: xs => store zero x :: storeElems zero store [] xs
  | b :: bs, x :: xs => store b x :: storeElems zero store bs xs

/-- Store a JSON value in a Go slice, given by its elements `cur.1` and by the
written part `cur.2` of its backing array beyond its length. `null` makes the
slice nil and an empty array makes it a fresh empty slice. The elements of
any other array are decoded in place, over the old elements and the rest of
the backing array, and the length becomes that of the array. Anything else is
a type error that leaves the slice alone. -/
def storeSlice {α : Type} (zero : α) (store : α → JSON → α × Option Error) (goType : String)
    (cur : List α × List α) (v : JSON) : (List α × List α) × Option Error :=
  match v with
  | .null => (([], []), none)
  | .arr [] => (([], []), none)
  | .arr elems =>
    let backing := cur.1 ++ cur.2
    let rs := storeElems zero store backing elems
    ((rs.map (·.1), backing.drop elems.length),
      rs.foldl (fun saved r => saveError saved r.2) none)
  | _ => (cur, some (.unmarshalType v.kindName goType))

/-! ## events.go: the data model -/

/-- Source `Author`. -/
structure Author where
  Id : String := ""
  LastLoginOn : Int := 0
  LastActiveOn : Int := 0
  IsDeactivated : Bool := false
  Deleted : Bool := false
  DisplayName : String := ""
  FirstName : String := ""
  LastName : String := ""
  EmailVerified : Bool := false
  Bio : String := ""
  RevalidateTimestamp : Int := 0
  SystemGenerated : Bool := false
deriving DecidableEq, Repr

/-- Source `StructuredContent`; its field `Type` is written `Type_`. -/
structure StructuredContent where
  Type_ : String := ""
  StartDate : Int := 0
  EndDate : Int := 0
deriving DecidableEq, Repr

/-- Source `Items`, a struct without fields. -/
structure Items where
deriving DecidableEq, Repr

/-- Source `Event`. A Go slice is a backing array with a length and a
capacity: `Items` holds the elements below the length, and `ItemsSpare` the
elements beyond the length that an earlier, longer array left in the backing
array, which only the decoder can reach. The part of the capacity that was
never written holds zero values and is not listed. -/
structure Event where
  Id : String := ""
  CollectionId : String := ""
  RecordType : Int := 0
  AddedOn : Int := 0
  UpdatedOn : Int := 0
  PublishOn : Int := 0
  AuthorId : String := ""
  UrlId : String := ""
  Title : String := ""
  SourceUrl : String := ""
  Body : String := ""
  Author : Author := {}
  FullUrl : String := ""
  AssetUrl : String := ""
  ContentType : String := ""
  StructuredContent : StructuredContent := {}
  StartDate : Int := 0
  EndDate : Int := 0
  Items : List Items := []
  /-- The written part of the backing array of `Items` beyond its length. -/
  ItemsSpare : List Events.Items := []
deriving DecidableEq, Repr

/-- Source `Upcoming`; `Events` and `EventsSpare` as for the slice of `Event`. -/
structure Upcoming where
  Events : List Event := []
  /-- The written part of the backing array of `Events` beyond its length. -/
  EventsSpare : List Event := []
deriving DecidableEq, Repr

/-- The `json` tags of `Author`. -/
def Author.fields : List (Field Author) :=
  [ Field.of "id" (·.Id) (fun a x => { a with Id := x }) storeString,
    Field.of "lastLoginOn" (·.LastLoginOn) (fun a x => { a with LastLoginOn := x }) storeInt,
    Field.of "lastActiveOn" (·.LastActiveOn) (fun a x => { a with LastActiveOn := x }) storeInt,
    Field.of "isDeactivated" (·.IsDeactivated) (fun a x => { a with IsDeactivated := x }) storeBool,
    Field.of "deleted" (·.Deleted) (fun a x => { a with Deleted := x }) storeBool,
    Field.of "displayName" (·.DisplayName) (fun a x => { a with DisplayName := x }) storeString,
    Field.of "firstName" (·.FirstName) (fun a x => { a with FirstName := x }) storeString,
    Field.of "lastName" (·.LastName) (fun a x => { a with LastName := x }) storeString,
    Field.of "emailVerified" (·.EmailVerified) (fun a x => { a with EmailVerified := x }) storeBool,
    Field.of "bio" (·.Bio) (fun a x => { a with Bio := x }) storeString,
    Field.of "revalidateTimestamp" (·.RevalidateTimestamp)
      (fun a x => { a with RevalidateTimestamp := x }) storeInt,
    Field.of "systemGenerated" (·.SystemGenerated)
      (fun a x => { a with SystemGenerated := x }) storeBool ]

/-- The `json` tags of `StructuredContent`. -/
def StructuredContent.fields : List (Field StructuredContent) :=
  [ Field.of "_type" (·.Type_) (fun a x => { a with Type_ := x }) storeString,
    Field.of "startDate" (·.StartDate) (fun a x => { a with StartDate := x }) storeInt,
    Field.of "endDate" (·.EndDate) (fun a x => { a with EndDate := x }) storeInt ]

/-- Source `Items` declares no field, so no key selects one. -/
def Items.fields : List (Field Items) := []

/-- The `json` tags of `Event`. -/
def Event.fields : List (Field Event) :=
  [ Field.of "id" (·.Id) (fun a x => { a with Id := x }) storeString,
    Field.of "collectionId" (·.CollectionId) (fun a x => { a with CollectionId := x }) storeString,
    Field.of "recordType" (·.RecordType) (fun a x => { a with RecordType := x }) storeInt,
    Field.of "addedOn" (·.AddedOn) (fun a x => { a with AddedOn := x }) storeInt,
    Field.of "updatedOn" (·.UpdatedOn) (fun a x => { a with UpdatedOn := x }) storeInt,
    Field.of "publishOn" (·.PublishOn) (fun a x => { a with PublishOn := x }) storeInt,
    Field.of "authorId" (·.AuthorId) (fun a x => { a with AuthorId := x }) storeString,
    Field.of "urlId" (·.UrlId) (fun a x => { a with UrlId := x }) storeString,
    Field.of "title" (·.Title) (fun a x => { a with Title := x }) storeString,
    Field.of "sourceUrl" (·.SourceUrl) (fun a x => { a with SourceUrl := x }) storeString,
    Field.of "body" (·.Body) (fun a x => { a with Body := x }) storeString,
    Field.of "author" (·.Author) (fun a x => { a with Author := x })
      (storeStruct Author.fields "main.Author"),
    Field.of "fullUrl" (·.FullUrl) (fun a x => { a with FullUrl := x }) storeString,
    Field.of "assetUrl" (·.AssetUrl) (fun a x => { a with AssetUrl := x }) storeString,
    Field.of "contentType" (·.ContentType) (fun a x => { a with ContentType := x }) storeString,
    Field.of "structuredContent" (·.StructuredContent)
      (fun a x => { a with StructuredContent := x })
      (storeStruct StructuredContent.fields "main.StructuredContent"),
    Field.of "startDate" (·.StartDate) (fun a x => { a with StartDate := x }) storeInt,
    Field.of "endDate" (·.EndDate) (fun a x => { a with EndDate := x }) storeInt,
    Field.of "items" (fun a => (a.Items, a.ItemsSpare))
      (fun a x => { a with Items := x.1, ItemsSpare := x.2 })
      (storeSlice {} (storeStruct Items.fields "main.Items") "[]main.Items") ]

/-- The `json` tag of `Upcoming`. -/
def Upcoming.fields : List (Field Upcoming) :=
  [ Field.of "upcoming" (fun a => (a.Events, a.EventsSpare))
      (fun a x => { a with Events := x.1, EventsSpare := x.2 })
      (storeSlice {} (storeStruct Event.fields "main.Event") "[]main.Event") ]

/-- The bytes of a response body as `json.Unmarshal` reads them: either they
do not follow the grammar of JSON, or they are the text of a JSON value. -/
inductive Body where
  | malformed (msg : String)
  | document (j : JSON)

/-- Go `json.Unmarshal(data, &w)`: the text is checked first, and a text that
is not JSON or that nests deeper than `maxNestingDepth` is a `SyntaxError`
that leaves `w` alone; then the document is stored in `w`. -/
def Unmarshal (data : Body) (w : Upcoming) : Upcoming × Option Error :=
  match data with
  | .malformed msg => (w, some (.malformed msg))
  | .document j =>
    if j.nestedWithin maxNestingDepth then storeStruct Upcoming.fields "main.Upcoming" w j
    else (w, some (.malformed "exceeded max depth"))

/-! ## events.go: the pipeline -/

/-- What `http.Get` followed by `ioutil.ReadAll(rsp.Body)` yields for a URL. -/
inductive Upstream where
  | getFailed (err : Error)
  | readFailed (err : Error)
  | ok (body : Body)

/-- The surroundings of a request: the flag `src` and the network. -/
structure World where
  src : String
  net : String → Upstream

/-- The results of `fetchEvents` with the URLs it sent a GET request to. -/
structure FetchResult where
  val : String
  err : Option Error
  gets : List String
deriving DecidableEq, Repr

/-- One turn of the loop of `fetchEvents` over `w.Events`; `fmt.Sprintf` with
`%s` copies its string argument. `stripTags` stands for `strip.StripTags`. -/
def renderEvent (stripTags : String → String) (sVal : String) (e : Event) : String :=
  let sVal := sVal ++ "BEGIN:VEVENT\r\n"
  let uid := "UID:" ++ e.Id ++ "\r\n"
  let start := "DTSTART:" ++ to8601 e.StartDate ++ "\r\n"
  let stop := "DTEND:" ++ to8601 e.EndDate ++ "\r\n"
  let summary := "SUMMARY:" ++ e.Title ++ "\r\n"
  let desc := "DESCRIPTION:" ++ stripTags e.Body ++ "\r\n"
  let sVal := sVal ++ (uid ++ start ++ stop ++ summary ++ desc)
  let sVal := sVal ++ "END:VEVENT\r\n"
  sVal

set_option linter.unusedVariables false in
/-- Source `fetchEvents`. The calls of `log.Printf` are left out. -/
def fetchEvents (stripTags : String → String) (world : World) (url : String) : FetchResult :=
  match world.net world.src with
  | .getFailed err => ⟨"", some err, [world.src]⟩
  | .readFailed err => ⟨"", some err, [world.src]⟩
  | .ok body =>
    let w : Upcoming := {}
    match Unmarshal body w with
    | (_, some err) => ⟨"", some err, [world.src]⟩
    | (w, none) =>
      let sVal := ""
      let sVal := sVal ++ "BEGIN:VCALENDAR\r\n"
      let sVal := sVal ++ "VERSION:2.0\r\n"
      let sVal := w.Events.foldl (renderEvent stripTags) sVal
      let sVal := sVal ++ "END:VCALENDAR\r\n"
      ⟨sVal, none, [world.src]⟩

/-- The part of `http.Request` the handler reads: the parsed form. -/
structure Request where
  form : String → List String

/-- Go `Request.FormValue`: the first value of the key, or the empty string. -/
def Request.FormValue (r : Request) (key : String) : String := (r.form key).headD ""

/-- The part of `http.ResponseWriter` the handler drives. -/
structure ResponseWriter where
  status : Option Nat := none
  body : String := ""
deriving DecidableEq, Repr

/-- Go `WriteHeader`: the first status code written is the one sent. -/
def ResponseWriter.WriteHeader (w : ResponseWriter) (code : Nat) : ResponseWriter :=
  match w.status with
  | none => { w with status := some code }
  | some _ => w

/-- Go `Write`: sends the status 200 when none was written, then the bytes. -/
def ResponseWriter.Write (w : ResponseWriter) (p : String) : ResponseWriter :=
  let w := w.WriteHeader 200
  { w with body := w.body ++ p }

/-- Source `handler`, with the URLs `fetchEvents` requested. -/
def handler (stripTags : String → String) (world : World) (w : ResponseWriter) (r : Request) :
    ResponseWriter × List String :=
  let url := r.FormValue "url"
  if ¬ (url.utf8ByteSize > 0) ∨ url = "" then
    (w.WriteHeader 405, [])
  else
    let res := fetchEvents stripTags world url
    match res.err with
    | some _ => (w.WriteHeader 405, res.gets)
    | none =>
      let w := w.WriteHeader 200
      let w := w.Write res.val
      (w, res.gets)

/-- Modelled from the spec: `strip.StripTags` of the package `strip` of this
repository, which is not among the sources. The spec describes it as removing
HTML/XML-style tags, keeping the text between them, without decoding entities:
here everything from a `<` to the next `>` is dropped. -/
def stripTagsAux : List Char → Bool → List Char
  | [], _ => []
  | c :: rest, inTag =>
    if inTag then (if c = '>' then stripTagsAux rest false else stripTagsAux rest true)
    else if c = '<' then stripTagsAux rest true
    else c :: stripTagsAux rest false

/-- Modelled from the spec: `strip.StripTags` on strings, see `stripTagsAux`. -/
def stripTags (s : String) : String := String.mk (stripTagsAux s.data false)

/-! ## Specification side: the proleptic Gregorian calendar and the layout -/

/-- Leap years of the proleptic Gregorian calendar. -/
def leapYear (y : Int) : Bool := decide (y % 4 = 0 ∧ (y % 100 ≠ 0 ∨ y % 400 = 0))

/-- Length in days of month `m` (1..12). -/
def monthLength (leap : Bool) (m : Nat) : Nat :=
  match m with
  | 1 => 31 | 2 => if leap then 29 else 28 | 3 => 31 | 4 => 30 | 5 => 31 | 6 => 30
  | 7 => 31 | 8 => 31 | 9 => 30 | 10 => 31 | 11 => 30 | 12 => 31 | _ => 0

/-- Days of the year that precede month `m`. -/
def daysBeforeMonth (leap : Bool) (m : Nat) : Nat :=
  ((List.range (m - 1)).map (fun i => monthLength leap (i + 1))).sum

/-- Length in days of year `y`. -/
def yearLength (y : Int) : Nat := if leapYear y then 366 else 365

/-- Number of leap years among the years `1 .. y - 1` (extended backwards for `y ≤ 0`). -/
def leapYearsBefore (y : Int) : Int := (y - 1) / 4 - (y - 1) / 100 + (y - 1) / 400

/-- Days from 1970-01-01 to January 1 of year `y` (negative before 1970). -/
def daysBeforeYear (y : Int) : Int :=
  365 * (y - 1970) + (leapYearsBefore y - leapYearsBefore 1970)

/-- A calendar date with a time of day. -/
structure Civil where
  year : Int
  month : Nat
  day : Nat
  hour : Nat
  minute : Nat
  second : Nat
deriving DecidableEq, Repr

/-- The fields denote an existing day and an existing time of day. -/
def Civil.valid (c : Civil) : Prop :=
  1 ≤ c.month ∧ c.month ≤ 12 ∧ 1 ≤ c.day ∧ c.day ≤ monthLength (leapYear c.year) c.month
    ∧ c.hour < 24 ∧ c.minute < 60 ∧ c.second < 60

instance (c : Civil) : Decidable c.valid := by
  unfold Civil.valid; exact inferInstance

/-- Seconds from 1970-01-01T00:00:00Z to the UTC instant the fields denote. -/
def Civil.unixSeconds (c : Civil) : Int :=
  (daysBeforeYear c.year + daysBeforeMonth (leapYear c.year) c.month + ((c.day : Int) - 1)) * 86400
    + c.hour * 3600 + c.minute * 60 + c.second

/-- The date and time of day that `Time.Format` reads off a `Time`. -/
def Time.civil (t : Time) : Civil :=
  let ymd := absDate t.abs
  let hms := absClock t.abs
  ⟨ymd.1, ymd.2.1, ymd.2.2, hms.1, hms.2.1, hms.2.2⟩

/-- The decimal digit character of `n mod 10`. -/
def digit (n : Nat) : Char := Char.ofNat (48 + n % 10)

/-- A two-digit field. -/
def field2 (n : Nat) : List Char := [digit (n / 10), digit n]

/-- A four-digit field. -/
def field4 (n : Nat) : List Char := [digit (n / 1000), digit (n / 100), digit (n / 10), digit n]

/-- The layout `YYYYMMDDTHHMMSSZ`: four-digit year, two-digit month, day, hour,
minute and second, with the letters `T` and `Z`. -/
def layout (c : Civil) : String :=
  String.mk (field4 c.year.toNat ++ field2 c.month ++ field2 c.day ++ ['T']
    ++ field2 c.hour ++ field2 c.minute ++ field2 c.second ++ ['Z'])

/-- Recogniser of the 16-character pattern `YYYYMMDDTHHMMSSZ`. -/
def matchesLayout (s : String) : Bool :=
  match s.data with
  | [y1, y2, y3, y4, m1, m2, d1, d2, t, h1, h2, n1, n2, s1, s2, z] =>
    [y1, y2, y3, y4, m1, m2, d1, d2, h1, h2, n1, n2, s1, s2].all Char.isDigit
      && t == 'T' && z == 'Z'
  | _ => false

/-- The millisecond epochs whose UTC year lies in `0000 .. 9999`. -/
def fourDigitYear (t : Int) : Prop := -62167219200999 ≤ t ∧ t ≤ 253402300799999

instance (t : Int) : Decidable (fourDigitYear t) := by
  unfold fourDigitYear; exact inferInstance

/-! ## Specification side: the calendar text -/

/-- Lines written one after the other, each terminated by CRLF. -/
def joinCRLF : List String → String
  | [] => ""
  | l :: ls => l ++ "\r\n" ++ joinCRLF ls

/-- Strings written one after the other. -/
def concat : List String → String
  | [] => ""
  | s :: ss => s ++ concat ss

/-- The seven lines of the VEVENT block of an event. -/
def eventLines (stripTags : String → String) (e : Event) : List String :=
  [ "BEGIN:VEVENT",
    "UID:" ++ e.Id,
    "DTSTART:" ++ to8601 e.StartDate,
    "DTEND:" ++ to8601 e.EndDate,
    "SUMMARY:" ++ e.Title,
    "DESCRIPTION:" ++ stripTags e.Body,
    "END:VEVENT" ]

/-- The VEVENT block of an event. -/
def block (stripTags : String → String) (e : Event) : String :=
  joinCRLF (eventLines stripTags e)

/-- The lines of the blocks of a list of events, in the order of the list. -/
def eventsLines (stripTags : String → String) : List Event → List String
  | [] => []
  | e :: es => eventLines stripTags e ++ eventsLines stripTags es

/-- The lines of the calendar of a list of events. -/
def calendarLines (stripTags : String → String) (es : List Event) : List String :=
  ["BEGIN:VCALENDAR", "VERSION:2.0"] ++ eventsLines stripTags es ++ ["END:VCALENDAR"]

/-- The text contains neither a carriage return nor a line feed. -/
def noLineBreak (s : String) : Prop := ∀ c ∈ s.data, c ≠ '\r' ∧ c ≠ '\n'

/-- Splitting at every CRLF, as `strings.Split(text, "\r\n")` does, one
character at a time: `cur` holds the characters of the current piece, last one
first, and `pending` tells that a carriage return was read and is not yet in
`cur`. -/
def splitCRLFAux : List Char → List Char → Bool → List (List Char)
  | [], cur, pending => [(if pending then '\r' :: cur else cur).reverse]
  | c :: rest, cur, pending =>
    if pending then
      if c = '\n' then cur.reverse :: splitCRLFAux rest [] false
      else if c = '\r' then splitCRLFAux rest ('\r' :: cur) true
      else splitCRLFAux rest (c :: '\r' :: cur) false
    else if c = '\r' then splitCRLFAux rest cur true
    else splitCRLFAux rest (c :: cur) false

/-- The pieces of a text between its CRLF separators. A text made of `n`
CRLF-terminated lines has `n + 1` pieces, the last one empty. -/
def splitCRLF (s : String) : List String := (splitCRLFAux s.data [] false).map String.mk

/-- The response a client receives once the handler has returned. -/
structure Response where
  status : Nat
  body : String
deriving DecidableEq, Repr

/-- Serving a request: the handler runs on a fresh `ResponseWriter`; a handler
that writes no status sends 200. -/
def serve (stripTags : String → String) (world : World) (r : Request) : Response :=
  let w := (handler stripTags world {} r).1
  ⟨w.status.getD 200, w.body⟩

/-- The event of the example of the spec. -/
def meetup : Event :=
  { Id := "abc",
    StartDate := 1700000000000,
    EndDate := 1700003600000,
    Title := "Meetup",
    Body := "<p>Join us</p>" }

/-- An event that starts first. -/
def firstEvent : Event :=
  { Id := "a",
    StartDate := 1000,
    Title := "first" }

/-- An event that starts second. -/
def secondEvent : Event :=
  { Id := "b",
    StartDate := 2000,
    Title := "second" }

/-! ## Specification side: the documents the decoder takes -/

/-- What a Go `string` takes: `null` or a string. -/
def admitsString : JSON → Bool
  | .null => true
  | .str _ => true
  | _ => false

/-- What a Go `int` takes: `null` or an integer literal of 64 bits. -/
def admitsInt : JSON → Bool
  | .null => true
  | .int i => decide (-9223372036854775808 ≤ i ∧ i ≤ 9223372036854775807)
  | _ => false

/-- What a Go `bool` takes: `null` or a boolean. -/
def admitsBool : JSON → Bool
  | .null => true
  | .bool _ => true
  | _ => false

/-- The declared shape of a struct: the names of its fields, each with what
the type of the field takes. -/
abbrev Shape := List (String × (JSON → Bool))

/-- What the field an object key selects takes, when the key selects one. -/
def Shape.lookup (shape : Shape) (key : String) : Option (JSON → Bool) :=
  match shape.find? (fun p => p.1 == key) with
  | some p => some p.2
  | none => (shape.find? (fun p => equalFold p.1 key)).map (·.2)

/-- The member of an object holds a value its field does not take. -/
def Shape.rejects (shape : Shape) (kv : String × JSON) : Bool :=
  match shape.lookup kv.1 with
  | none => false
  | some ok => !ok kv.2

/-- What a struct takes: `null`, or an object none of whose members holds a
value that the field it selects does not take. Fields may be missing, and
members that select no field may be present. -/
def admitsStruct (shape : Shape) : JSON → Bool
  | .null => true
  | .obj members => !members.any shape.rejects
  | _ => false

/-- What a slice takes: `null`, or an array of values its element type takes. -/
def admitsSlice (elem : JSON → Bool) : JSON → Bool
  | .null => true
  | .arr elems => elems.all elem
  | _ => false

/-- The declared shape of `Author`. -/
def Author.shape : Shape :=
  [ ("id", admitsString), ("lastLoginOn", admitsInt), ("lastActiveOn", admitsInt),
    ("isDeactivated", admitsBool), ("deleted", admitsBool), ("displayName", admitsString),
    ("firstName", admitsString), ("lastName", admitsString), ("emailVerified", admitsBool),
    ("bio", admitsString), ("revalidateTimestamp", admitsInt), ("systemGenerated", admitsBool) ]

/-- The declared shape of `StructuredContent`. -/
def StructuredContent.shape : Shape :=
  [ ("_type", admitsString), ("startDate", admitsInt), ("endDate", admitsInt) ]

/-- The declared shape of `Items`. -/
def Items.shape : Shape := []

/-- The declared shape of `Event`. -/
def Event.shape : Shape :=
  [ ("id", admitsString), ("collectionId", admitsString), ("recordType", admitsInt),
    ("addedOn", admitsInt), ("updatedOn", admitsInt), ("publishOn", admitsInt),
    ("authorId", admitsString), ("urlId", admitsString), ("title", admitsString),
    ("sourceUrl", admitsString), ("body", admitsString),
    ("author", admitsStruct Author.shape), ("fullUrl", admitsString),
    ("assetUrl", admitsString), ("contentType", admitsString),
    ("structuredContent", admitsStruct StructuredContent.shape),
    ("startDate", admitsInt), ("endDate", admitsInt),
    ("items", admitsSlice (admitsStruct Items.shape)) ]

/-- The declared shape of `Upcoming`. -/
def Upcoming.shape : Shape :=
  [ ("upcoming", admitsSlice (admitsStruct Event.shape)) ]

/-- The documents whose present values all have the declared JSON types. -/
def Upcoming.admits (j : JSON) : Bool := admitsStruct Upcoming.shape j

/-- The document is an object with a member `upcoming` that holds an array. -/
def hasUpcomingArray : JSON → Bool
  | .obj members => members.any (fun kv =>
      kv.1 == "upcoming" && (match kv.2 with | .arr _ => true | _ => false))
  | _ => false

/-- The key of an object member selects the field of this name: it is the
name, or it equals the name under case folding. -/
def selects (name key : String) : Bool := name == key || equalFold name key

/-- A document of `n` arrays, one inside the other, around `j`. -/
def nest : Nat → JSON → JSON
  | 0, j => j
  | n + 1, j => nest n (.arr [j])

/-- The fields of a struct and its declared shape go together: same names in
the same order, and storing in a field fails exactly on the values the shape
says the field does not take. -/
def Agree {σ : Type} (fields : List (Field σ)) (shape : Shape) : Prop :=
  List.Forall₂ (fun f p => f.name = p.1 ∧ ∀ cur v, (f.store cur v).2.isSome = !p.2 v)
    fields shape

/-! ## Arithmetic of the date routines -/

theorem tmod_eq_zero_iff (y k : Int) : y.tmod k = 0 ↔ y % k = 0 := by
  rw [← Int.dvd_iff_emod_eq_zero, ← Int.dvd_iff_tmod_eq_zero]

theorem isLeap_eq (y : Int) : isLeap y = leapYear y := by
  unfold isLeap leapYear
  rw [Bool.eq_iff_iff]
  simp [tmod_eq_zero_iff]

theorem tdiv_thousand (t : Int) :
    t.tdiv 1000 = if 0 ≤ t then t / 1000 else -((-t) / 1000) := by
  split
  · next h => exact Int.tdiv_eq_ediv h (by decide)
  · next h =>
    have h2 : (0 : Int) ≤ -t := by omega
    have := Int.tdiv_eq_ediv h2 (show (0 : Int) ≤ 1000 by decide)
    rw [Int.neg_tdiv] at this
    omega

theorem yearDay_arith (d n1 d1 n2 m2 d2 n3 d3 n4 m4 d4 : Nat) (year : Int)
    (h1 : n1 = d / 146097) (h2 : d1 = d - 146097 * n1)
    (h3 : n2 = d1 / 36524) (h4 : m2 = n2 - n2 / 4) (h5 : d2 = d1 - 36524 * m2)
    (h6 : n3 = d2 / 1461) (h7 : d3 = d2 - 1461 * n3)
    (h8 : n4 = d3 / 365) (h9 : m4 = n4 - n4 / 4) (h10 : d4 = d3 - 365 * m4)
    (hy : year = ((400 * n1 + 100 * m2 + 4 * n3 + m4 : Nat) : Int) + (-292277022399)) :
    365 * (year - 1970) + ((year - 1) / 4 - (year - 1) / 100 + (year - 1) / 400 - 477) + d4
      = (d : Int) - 106751991073094
    ∧ (d4 < 365 ∨ (d4 = 365 ∧ year % 4 = 0 ∧ (year % 100 ≠ 0 ∨ year % 400 = 0)))
    ∧ (0 ≤ year ↔ 106751990353566 ≤ d) ∧ (year ≤ 9999 ↔ d < 106751994005991) := by
  have a1 : d = 146097 * n1 + d1 ∧ d1 < 146097 := by omega
  have a2 : m2 ≤ 3 ∧ d1 = 36524 * m2 + d2 ∧ (d2 < 36524 ∨ (m2 = 3 ∧ d2 = 36524)) := by omega
  have a3 : d2 = 1461 * n3 + d3 ∧ d3 < 1461 ∧ n3 ≤ 24 := by omega
  have a4 : m4 ≤ 3 ∧ d3 = 365 * m4 + d4 ∧ (d4 < 365 ∨ (m4 = 3 ∧ d4 = 365)) := by omega
  have q4 : (year - 1) / 4 = 100 * (n1 : Int) + 25 * m2 + n3 - 73069255600 := by omega
  have q100 : (year - 1) / 100 = 4 * (n1 : Int) + m2 - 2922770224 := by omega
  have q400 : (year - 1) / 400 = (n1 : Int) - 730692556 := by omega
  refine ⟨by omega, ?_, ?_, ?_⟩
  · rcases a4.2.2 with h | ⟨hm, hd⟩
    · exact Or.inl h
    · refine Or.inr ⟨hd, by omega, ?_⟩
      by_cases hn : n3 = 24
      · right
        have : m2 = 3 := by omega
        omega
      · left; omega
  · omega
  · omega

theorem absYearDay_spec (abs : Nat) :
    daysBeforeYear (absYearDay abs).1 + (absYearDay abs).2
      = ((abs / 86400 : Nat) : Int) - 106751991073094
    ∧ (absYearDay abs).2 < yearLength (absYearDay abs).1
    ∧ (0 ≤ (absYearDay abs).1 ↔ 106751990353566 ≤ abs / 86400)
    ∧ ((absYearDay abs).1 ≤ 9999 ↔ abs / 86400 < 106751994005991) := by
  obtain ⟨e1, e2, e3, e4⟩ := yearDay_arith (abs / 86400) _ _ _ _ _ _ _ _ _ (absYearDay abs).2
    (absYearDay abs).1 rfl rfl rfl rfl rfl rfl rfl rfl rfl rfl rfl
  refine ⟨?_, ?_, e3, e4⟩
  · unfold daysBeforeYear leapYearsBefore
    have : ((1970 : Int) - 1) / 4 - (1970 - 1) / 100 + (1970 - 1) / 400 = 477 := by decide
    rw [this]; omega
  · unfold yearLength leapYear
    rcases e2 with h | ⟨h, h4, h100⟩
    · split <;> omega
    · rw [if_pos (decide_eq_true ⟨h4, h100⟩)]; omega

set_option maxRecDepth 100000 in
theorem monthDay_spec_common : ∀ yday, yday < 365 →
    1 ≤ (monthDay false yday).1 ∧ (monthDay false yday).1 ≤ 12 ∧ 1 ≤ (monthDay false yday).2
    ∧ (monthDay false yday).2 ≤ monthLength false (monthDay false yday).1
    ∧ daysBeforeMonth false (monthDay false yday).1 + ((monthDay false yday).2 - 1) = yday := by
  decide

set_option maxRecDepth 100000 in
theorem monthDay_spec_leap : ∀ yday, yday < 366 →
    1 ≤ (monthDay true yday).1 ∧ (monthDay true yday).1 ≤ 12 ∧ 1 ≤ (monthDay true yday).2
    ∧ (monthDay true yday).2 ≤ monthLength true (monthDay true yday).1
    ∧ daysBeforeMonth true (monthDay true yday).1 + ((monthDay true yday).2 - 1) = yday := by
  decide

theorem monthDay_spec (y : Int) (yday : Nat) (h : yday < yearLength y) :
    1 ≤ (monthDay (leapYear y) yday).1 ∧ (monthDay (leapYear y) yday).1 ≤ 12
    ∧ 1 ≤ (monthDay (leapYear y) yday).2
    ∧ (monthDay (leapYear y) yday).2 ≤ monthLength (leapYear y) (monthDay (leapYear y) yday).1
    ∧ daysBeforeMonth (leapYear y) (monthDay (leapYear y) yday).1
        + ((monthDay (leapYear y) yday).2 - 1) = yday := by
  unfold yearLength at h
  cases hl : leapYear y
  · rw [hl] at h; exact monthDay_spec_common yday (by simpa using h)
  · rw [hl] at h; exact monthDay_spec_leap yday (by simpa using h)

theorem absClock_spec (abs : Nat) :
    (absClock abs).1 < 24 ∧ (absClock abs).2.1 < 60 ∧ (absClock abs).2.2 < 60
    ∧ (absClock abs).1 * 3600 + (absClock abs).2.1 * 60 + (absClock abs).2.2 = abs % 86400 := by
  simp only [absClock, secondsPerDay, secondsPerHour, secondsPerMinute, Nat.reduceMul]
  omega

theorem abs_Unix (s : Int) (h1 : -9223372036854775 ≤ s) (h2 : s ≤ 9223372036854775) :
    ((Unix s).abs : Int) = s + 9223372028715321600 := by
  simp only [Unix, Time.abs, toUint64, wrapInt64, unixToInternal, internalToAbsolute]
  omega


theorem monthLength_le (leap : Bool) (m : Nat) : monthLength leap m ≤ 31 := by
  unfold monthLength
  split <;> try omega
  split <;> omega

theorem civil_spec (s : Int) (h1 : -9223372036854775 ≤ s) (h2 : s ≤ 9223372036854775) :
    (Unix s).civil.valid ∧ (Unix s).civil.unixSeconds = s
    ∧ (0 ≤ (Unix s).civil.year ↔ -62167219200 ≤ s)
    ∧ ((Unix s).civil.year ≤ 9999 ↔ s ≤ 253402300799) := by
  have ha := abs_Unix s h1 h2
  simp only [Time.civil, absDate, isLeap_eq, Civil.valid, Civil.unixSeconds]
  generalize (Unix s).abs = a at ha ⊢
  obtain ⟨y1, y2, y3, y4⟩ := absYearDay_spec a
  obtain ⟨m1, m2, m3, m4, m5⟩ := monthDay_spec _ _ y2
  obtain ⟨c1, c2, c3, c4⟩ := absClock_spec a
  refine ⟨⟨m1, m2, m3, m4, c1, c2, c3⟩, ?_, ?_, ?_⟩
  · have e5 : ((daysBeforeMonth (leapYear (absYearDay a).1)
        (monthDay (leapYear (absYearDay a).1) (absYearDay a).2).1 : Nat) : Int)
        + (((monthDay (leapYear (absYearDay a).1) (absYearDay a).2).2 : Nat) : Int) - 1
        = (((absYearDay a).2 : Nat) : Int) := by omega
    have e6 : (((absClock a).1 : Nat) : Int) * 3600 + (((absClock a).2.1 : Nat) : Int) * 60
        + (((absClock a).2.2 : Nat) : Int) = ((a % 86400 : Nat) : Int) := by
      rw [← c4]; push_cast; ring
    have e7 : ((a / 86400 : Nat) : Int) * 86400 + ((a % 86400 : Nat) : Int) = (a : Int) := by
      omega
    omega
  · rw [y3]; omega
  · rw [y4]; omega

theorem digitsRev_lt (fuel u : Nat) (h : u < 10) : digitsRev (fuel + 1) u = [Char.ofNat (48 + u)] := by
  simp [digitsRev]; omega

theorem digitsRev_ge (fuel u : Nat) (h : 10 ≤ u) :
    digitsRev (fuel + 1) u = Char.ofNat (48 + u % 10) :: digitsRev fuel (u / 10) := by
  simp [digitsRev, h]

theorem appendInt_field2 (n : Nat) (h : n < 100) : appendInt (n : Int) 2 = field2 n := by
  unfold appendInt field2 digit
  have hn : ¬ ((n : Int) < 0) := by omega
  simp only [hn, if_false, Int.natAbs_ofNat, List.nil_append]
  by_cases h10 : n < 10
  · have e1 : n / 10 = 0 := by omega
    have e2 : n % 10 = n := by omega
    rw [digitsRev_lt _ _ h10, e1, e2]; rfl
  · have e1 : n / 10 % 10 = n / 10 := by omega
    rw [digitsRev_ge _ _ (by omega), digitsRev_lt _ _ (by omega), e1]; rfl

theorem appendInt_field4 (y : Int) (h0 : 0 ≤ y) (h1 : y ≤ 9999) : appendInt y 4 = field4 y.toNat := by
  obtain ⟨n, rfl⟩ := Int.eq_ofNat_of_zero_le h0
  have h : n < 10000 := by omega
  unfold appendInt field4 digit
  have hn : ¬ ((n : Int) < 0) := by omega
  simp only [hn, if_false, Int.natAbs_ofNat, List.nil_append, Int.toNat_ofNat]
  by_cases h10 : n < 10
  · have e1 : n / 10 = 0 := by omega
    have e2 : n % 10 = n := by omega
    have e3 : n / 100 = 0 := by omega
    have e4 : n / 1000 = 0 := by omega
    rw [digitsRev_lt _ _ h10, e1, e2, e3, e4]; rfl
  · by_cases h100 : n < 100
    · have e1 : n / 10 % 10 = n / 10 := by omega
      have e3 : n / 100 = 0 := by omega
      have e4 : n / 1000 = 0 := by omega
      rw [digitsRev_ge _ _ (by omega), digitsRev_lt _ _ (by omega), e1, e3, e4]; rfl
    · by_cases h1000 : n < 1000
      · have e1 : n / 10 / 10 = n / 100 := by omega
        have e3 : n / 100 % 10 = n / 100 := by omega
        have e4 : n / 1000 = 0 := by omega
        rw [digitsRev_ge _ _ (by omega), digitsRev_ge _ _ (by omega), digitsRev_lt _ _ (by omega),
          e1, e3, e4]; rfl
      · have e1 : n / 10 / 10 = n / 100 := by omega
        have e2 : n / 100 / 10 = n / 1000 := by omega
        have e4 : n / 1000 % 10 = n / 1000 := by omega
        rw [digitsRev_ge _ _ (by omega), digitsRev_ge _ _ (by omega), e1,
          digitsRev_ge _ _ (by omega), e2, digitsRev_lt _ _ (by omega), e4]; rfl

theorem strftimeFormat_layout (t : Time) (hv : t.civil.valid) (h0 : 0 ≤ t.civil.year)
    (h1 : t.civil.year ≤ 9999) : strftimeFormat t = layout t.civil := by
  obtain ⟨v1, v2, v3, v4, v5, v6, v7⟩ := hv
  have hd := monthLength_le (leapYear t.civil.year) t.civil.month
  unfold strftimeFormat layout
  simp only [Time.civil] at *
  rw [appendInt_field4 _ h0 h1, appendInt_field2 _ (by omega), appendInt_field2 _ (by omega),
    appendInt_field2 _ (by omega), appendInt_field2 _ (by omega), appendInt_field2 _ (by omega)]

theorem ofNat_isDigit (k : Nat) (h : k < 10) : (Char.ofNat (48 + k)).isDigit = true := by
  interval_cases k <;> decide

theorem digit_isDigit (n : Nat) : (digit n).isDigit = true :=
  ofNat_isDigit _ (Nat.mod_lt _ (by decide))

theorem digitsRev_isDigit (fuel u : Nat) : ∀ c ∈ digitsRev fuel u, c.isDigit = true := by
  induction fuel generalizing u with
  | zero => intro c hc; simp [digitsRev] at hc
  | succ f ih =>
    intro c hc
    by_cases h : 10 ≤ u
    · rw [digitsRev_ge _ _ h] at hc
      rcases List.mem_cons.mp hc with rfl | hc
      · exact ofNat_isDigit _ (Nat.mod_lt _ (by decide))
      · exact ih _ c hc
    · rw [digitsRev_lt _ _ (by omega)] at hc
      rw [List.mem_singleton.mp hc]
      exact ofNat_isDigit _ (by omega)

/-- The characters `appendInt` can produce. -/
theorem appendInt_chars (x : Int) (w : Nat) : ∀ c ∈ appendInt x w, c.isDigit = true ∨ c = '-' := by
  intro c hc
  unfold appendInt at hc
  simp only [List.mem_append, List.mem_reverse] at hc
  rcases hc with (hc | hc) | hc
  · split at hc
    · right; simpa using hc
    · simp at hc
  · left; rw [(List.mem_replicate.mp hc).2]; decide
  · left; exact digitsRev_isDigit _ _ c hc

theorem to8601_chars (t : Int) :
    ∀ c ∈ (to8601 t).data, c.isDigit = true ∨ c = '-' ∨ c = 'T' ∨ c = 'Z' := by
  intro c hc
  simp only [to8601, strftimeFormat, List.mem_append, List.mem_singleton] at hc
  have key : ∀ x w, c ∈ appendInt x w → c.isDigit = true ∨ c = '-' ∨ c = 'T' ∨ c = 'Z' := by
    intro x w h
    rcases appendInt_chars x w c h with h | h
    · exact Or.inl h
    · exact Or.inr (Or.inl h)
  rcases hc with (((((( hc | hc) | hc) | hc) | hc) | hc) | hc) | hc
  · exact key _ _ hc
  · exact key _ _ hc
  · exact key _ _ hc
  · exact Or.inr (Or.inr (Or.inl hc))
  · exact key _ _ hc
  · exact key _ _ hc
  · exact key _ _ hc
  · exact Or.inr (Or.inr (Or.inr hc))

theorem isDigit_ne_crlf (c : Char) (h : c.isDigit = true) : c ≠ '\r' ∧ c ≠ '\n' := by
  constructor <;> (rintro rfl; revert h; decide)

theorem to8601_no_crlf (t : Int) : ∀ c ∈ (to8601 t).data, c ≠ '\r' ∧ c ≠ '\n' := by
  intro c hc
  rcases to8601_chars t c hc with h | rfl | rfl | rfl
  · exact isDigit_ne_crlf c h
  · decide
  · decide
  · decide

theorem matchesLayout_layout (c : Civil) : matchesLayout (layout c) = true := by
  simp [matchesLayout, layout, field4, field2, digit_isDigit]

theorem digitsRev_length_pos (fuel u : Nat) : 0 < (digitsRev (fuel + 1) u).length := by
  by_cases h : 10 ≤ u
  · rw [digitsRev_ge _ _ h]; simp
  · rw [digitsRev_lt _ _ (by omega)]; simp

theorem appendInt_year_long (y : Int) (h : y < 0 ∨ 9999 < y) : 5 ≤ (appendInt y 4).length := by
  unfold appendInt
  rcases h with h | h
  · simp only [h, if_true, List.length_append, List.length_replicate, List.length_reverse,
      List.length_cons, List.length_nil]
    omega
  · have hn : 10000 ≤ y.natAbs := by omega
    have e1 : y.natAbs / 10 / 10 / 10 ≥ 10 := by omega
    have hpos := digitsRev_length_pos 15 (y.natAbs / 10 / 10 / 10 / 10)
    simp only [List.length_append, List.length_replicate, List.length_reverse]
    rw [digitsRev_ge 19 _ (by omega), digitsRev_ge 18 _ (by omega), digitsRev_ge 17 _ (by omega),
      digitsRev_ge 16 _ e1]
    simp only [List.length_cons]
    generalize (digitsRev (15 + 1) (y.natAbs / 10 / 10 / 10 / 10)).length = k at hpos ⊢
    omega

theorem appendInt_two_length (n : Nat) (h : n < 100) : (appendInt (n : Int) 2).length = 2 := by
  rw [appendInt_field2 n h]; rfl

theorem layout_length (c : Civil) : (layout c).length = 16 := by
  simp [layout, field4, field2, String.length]

theorem strftimeFormat_long (t : Time) (hv : t.civil.valid)
    (h : t.civil.year < 0 ∨ 9999 < t.civil.year) : 17 ≤ (strftimeFormat t).length := by
  obtain ⟨v1, v2, v3, v4, v5, v6, v7⟩ := hv
  have hd := monthLength_le (leapYear t.civil.year) t.civil.month
  have hy := appendInt_year_long _ h
  simp only [Time.civil] at *
  simp only [strftimeFormat, String.length, List.length_append, List.length_cons, List.length_nil]
  rw [appendInt_two_length _ (by omega), appendInt_two_length _ (by omega),
    appendInt_two_length _ (by omega), appendInt_two_length _ (by omega),
    appendInt_two_length _ (by omega)]
  omega

theorem tdiv_bounds (t : Int) (ht : isInt64 t) :
    -9223372036854775 ≤ t.tdiv 1000 ∧ t.tdiv 1000 ≤ 9223372036854775 := by
  unfold isInt64 at ht
  rw [tdiv_thousand]
  split <;> omega

theorem tdiv_range (t : Int) :
    (-62167219200 ≤ t.tdiv 1000 ∧ t.tdiv 1000 ≤ 253402300799) ↔ fourDigitYear t := by
  unfold fourDigitYear
  rw [tdiv_thousand]
  split <;> omega

/-! ## The renderer -/

theorem concat_append (a b : List String) : concat (a ++ b) = concat a ++ concat b := by
  induction a with
  | nil => simp [concat]
  | cons s ss ih => simp [concat, ih, String.append_assoc]

theorem joinCRLF_append (a b : List String) : joinCRLF (a ++ b) = joinCRLF a ++ joinCRLF b := by
  induction a with
  | nil => simp [joinCRLF]
  | cons s ss ih => simp [joinCRLF, ih, String.append_assoc]

theorem renderEvent_eq (strip : String → String) (sVal : String) (e : Event) :
    renderEvent strip sVal e = sVal ++ block strip e := by
  simp [renderEvent, block, eventLines, joinCRLF, String.append_assoc]

theorem foldl_renderEvent (strip : String → String) (es : List Event) (sVal : String) :
    es.foldl (renderEvent strip) sVal = sVal ++ concat (es.map (block strip)) := by
  induction es generalizing sVal with
  | nil => simp [concat]
  | cons e es ih => simp [ih, renderEvent_eq, concat, String.append_assoc]

theorem joinCRLF_eventsLines (strip : String → String) (es : List Event) :
    joinCRLF (eventsLines strip es) = concat (es.map (block strip)) := by
  induction es with
  | nil => simp [eventsLines, joinCRLF, concat]
  | cons e es ih => simp [eventsLines, joinCRLF_append, ih, concat, block]

theorem fetchEvents_ok (strip : String → String) (world : World) (url : String) (body : Body)
    (w : Upcoming) (hn : world.net world.src = .ok body) (hu : Unmarshal body {} = (w, none)) :
    fetchEvents strip world url
      = ⟨"BEGIN:VCALENDAR\r\nVERSION:2.0\r\n" ++ concat (w.Events.map (block strip))
          ++ "END:VCALENDAR\r\n", none, [world.src]⟩ := by
  simp only [fetchEvents, hn, hu, foldl_renderEvent]
  simp [String.append_assoc]

theorem fetchEvents_unmarshal_err (strip : String → String) (world : World) (url : String)
    (body : Body) (w : Upcoming) (err : Error) (hn : world.net world.src = .ok body)
    (hu : Unmarshal body {} = (w, some err)) :
    fetchEvents strip world url = ⟨"", some err, [world.src]⟩ := by
  simp only [fetchEvents, hn, hu]

theorem fetchEvents_getFailed (strip : String → String) (world : World) (url : String)
    (err : Error) (hn : world.net world.src = .getFailed err) :
    fetchEvents strip world url = ⟨"", some err, [world.src]⟩ := by
  simp only [fetchEvents, hn]

theorem fetchEvents_readFailed (strip : String → String) (world : World) (url : String)
    (err : Error) (hn : world.net world.src = .readFailed err) :
    fetchEvents strip world url = ⟨"", some err, [world.src]⟩ := by
  simp only [fetchEvents, hn]

/-- The outcomes of `fetchEvents`: an error with the empty string, or a text without error. -/
theorem fetchEvents_cases (strip : String → String) (world : World) (url : String) :
    (∃ err, fetchEvents strip world url = ⟨"", some err, [world.src]⟩)
    ∨ (∃ text, fetchEvents strip world url = ⟨text, none, [world.src]⟩) := by
  cases hn : world.net world.src with
  | getFailed err => exact Or.inl ⟨err, fetchEvents_getFailed strip world url err hn⟩
  | readFailed err => exact Or.inl ⟨err, fetchEvents_readFailed strip world url err hn⟩
  | ok body =>
    rcases hu : Unmarshal body {} with ⟨w, _ | err⟩
    · exact Or.inr ⟨_, fetchEvents_ok strip world url body w hn hu⟩
    · exact Or.inl ⟨err, fetchEvents_unmarshal_err strip world url body w err hn hu⟩

theorem fetchEvents_gets (strip : String → String) (world : World) (url : String) :
    (fetchEvents strip world url).gets = [world.src] := by
  rcases fetchEvents_cases strip world url with ⟨e, h⟩ | ⟨t, h⟩ <;> rw [h]

theorem fetchEvents_err_iff (strip : String → String) (world : World) (url : String) :
    (fetchEvents strip world url).err ≠ none ↔
      ((∃ e, world.net world.src = .getFailed e) ∨ (∃ e, world.net world.src = .readFailed e)
        ∨ (∃ body, world.net world.src = .ok body ∧ (Unmarshal body {}).2 ≠ none)) := by
  cases hn : world.net world.src with
  | getFailed err => simp [fetchEvents_getFailed strip world url err hn]
  | readFailed err => simp [fetchEvents_readFailed strip world url err hn]
  | ok body =>
    rcases hu : Unmarshal body {} with ⟨w, _ | err⟩
    · simp [fetchEvents_ok strip world url body w hn hu, hu]
    · simp [fetchEvents_unmarshal_err strip world url body w err hn hu, hu]

/-! ## The handler -/

theorem utf8ByteSize_pos (s : String) (h : s ≠ "") : 0 < s.utf8ByteSize := by
  rcases s with ⟨l⟩
  cases l with
  | nil => exact absurd rfl h
  | cons c cs =>
    simp only [String.utf8ByteSize, String.utf8ByteSize.go]
    have := Char.utf8Size_pos c
    omega

theorem handler_no_url (strip : String → String) (world : World) (w : ResponseWriter)
    (r : Request) (h : r.FormValue "url" = "") :
    handler strip world w r = (w.WriteHeader 405, []) := by
  simp [handler, h]

theorem handler_err (strip : String → String) (world : World) (w : ResponseWriter)
    (r : Request) (h : r.FormValue "url" ≠ "") (err : Error)
    (he : (fetchEvents strip world (r.FormValue "url")).err = some err) :
    handler strip world w r
      = (w.WriteHeader 405, (fetchEvents strip world (r.FormValue "url")).gets) := by
  have hp := utf8ByteSize_pos _ h
  simp [handler, h, hp, he]

theorem handler_ok (strip : String → String) (world : World) (w : ResponseWriter)
    (r : Request) (h : r.FormValue "url" ≠ "")
    (he : (fetchEvents strip world (r.FormValue "url")).err = none) :
    handler strip world w r
      = ((w.WriteHeader 200).Write (fetchEvents strip world (r.FormValue "url")).val,
          (fetchEvents strip world (r.FormValue "url")).gets) := by
  have hp := utf8ByteSize_pos _ h
  simp [handler, h, hp, he]

theorem serve_no_url (strip : String → String) (world : World) (r : Request)
    (h : r.FormValue "url" = "") : serve strip world r = ⟨405, ""⟩ := by
  simp [serve, handler_no_url strip world _ r h, ResponseWriter.WriteHeader]

theorem serve_err (strip : String → String) (world : World) (r : Request)
    (h : r.FormValue "url" ≠ "") (err : Error)
    (he : (fetchEvents strip world (r.FormValue "url")).err = some err) :
    serve strip world r = ⟨405, ""⟩ := by
  simp [serve, handler_err strip world _ r h err he, ResponseWriter.WriteHeader]

theorem serve_ok (strip : String → String) (world : World) (r : Request)
    (h : r.FormValue "url" ≠ "")
    (he : (fetchEvents strip world (r.FormValue "url")).err = none) :
    serve strip world r = ⟨200, (fetchEvents strip world (r.FormValue "url")).val⟩ := by
  simp [serve, handler_ok strip world _ r h he, ResponseWriter.WriteHeader,
    ResponseWriter.Write]

/-! ## Lines of the calendar -/

theorem splitCRLFAux_line (l rest cur : List Char) (h : ∀ c ∈ l, c ≠ '\r') :
    splitCRLFAux (l ++ '\r' :: '\n' :: rest) cur false
      = (cur.reverse ++ l) :: splitCRLFAux rest [] false := by
  induction l generalizing cur with
  | nil => simp [splitCRLFAux]
  | cons a l ih =>
    have ha : a ≠ '\r' := h a (List.mem_cons_self _ _)
    have hl : ∀ c ∈ l, c ≠ '\r' := fun c hc => h c (List.mem_cons_of_mem _ hc)
    simp [splitCRLFAux, ha, ih _ hl]

theorem joinCRLF_data (l : String) (ls : List String) :
    (joinCRLF (l :: ls)).data = l.data ++ '\r' :: '\n' :: (joinCRLF ls).data := by
  simp [joinCRLF, String.data_append]

theorem splitCRLF_joinCRLF (ls : List String) (h : ∀ l ∈ ls, noLineBreak l) :
    splitCRLF (joinCRLF ls) = ls ++ [""] := by
  unfold splitCRLF
  induction ls with
  | nil => rfl
  | cons l ls ih =>
    have hl : ∀ c ∈ l.data, c ≠ '\r' := fun c hc => (h l (List.mem_cons_self _ _) c hc).1
    rw [joinCRLF_data, splitCRLFAux_line _ _ _ hl]
    simp [ih (fun x hx => h x (List.mem_cons_of_mem _ hx))]

theorem eventsLines_length (strip : String → String) (es : List Event) :
    (eventsLines strip es).length = 7 * es.length := by
  induction es with
  | nil => rfl
  | cons e es ih => simp [eventsLines, eventLines, ih]; omega

theorem eventsLines_getElem (strip : String → String) (es : List Event) (k j : Nat) (e : Event)
    (hk : es[k]? = some e) (hj : j < 7) :
    (eventsLines strip es)[7 * k + j]? = (eventLines strip e)[j]? := by
  induction es generalizing k with
  | nil => simp at hk
  | cons a es ih =>
    cases k with
    | zero =>
      simp at hk; subst hk
      simp only [eventsLines, Nat.mul_zero, Nat.zero_add]
      rw [List.getElem?_append_left (by simpa [eventLines] using hj)]
    | succ k =>
      simp at hk
      simp only [eventsLines]
      rw [List.getElem?_append_right (by simp [eventLines]; omega)]
      have : 7 * (k + 1) + j - (eventLines strip a).length = 7 * k + j := by
        simp [eventLines]; omega
      rw [this, ih k hk]

theorem noLineBreak_append (a b : String) (ha : noLineBreak a) (hb : noLineBreak b) :
    noLineBreak (a ++ b) := by
  intro c hc
  rw [String.data_append, List.mem_append] at hc
  rcases hc with hc | hc
  · exact ha c hc
  · exact hb c hc

theorem eventLines_noLineBreak (strip : String → String) (e : Event)
    (h : noLineBreak e.Id ∧ noLineBreak e.Title ∧ noLineBreak (strip e.Body)) :
    ∀ l ∈ eventLines strip e, noLineBreak l := by
  intro l hl
  simp only [eventLines, List.mem_cons, List.mem_singleton, List.not_mem_nil, or_false] at hl
  rcases hl with rfl | rfl | rfl | rfl | rfl | rfl | rfl
  · unfold noLineBreak; decide
  · exact noLineBreak_append _ _ (by unfold noLineBreak; decide) h.1
  · exact noLineBreak_append _ _ (by unfold noLineBreak; decide) (to8601_no_crlf _)
  · exact noLineBreak_append _ _ (by unfold noLineBreak; decide) (to8601_no_crlf _)
  · exact noLineBreak_append _ _ (by unfold noLineBreak; decide) h.2.1
  · exact noLineBreak_append _ _ (by unfold noLineBreak; decide) h.2.2
  · unfold noLineBreak; decide

theorem eventsLines_noLineBreak (strip : String → String) (es : List Event)
    (h : ∀ e ∈ es, noLineBreak e.Id ∧ noLineBreak e.Title ∧ noLineBreak (strip e.Body)) :
    ∀ l ∈ eventsLines strip es, noLineBreak l := by
  induction es with
  | nil => intro l hl; simp [eventsLines] at hl
  | cons e es ih =>
    intro l hl
    simp only [eventsLines, List.mem_append] at hl
    rcases hl with hl | hl
    · exact eventLines_noLineBreak strip e (h e (List.mem_cons_self _ _)) l hl
    · exact ih (fun x hx => h x (List.mem_cons_of_mem _ hx)) l hl

theorem calendarLines_noLineBreak (strip : String → String) (es : List Event)
    (h : ∀ e ∈ es, noLineBreak e.Id ∧ noLineBreak e.Title ∧ noLineBreak (strip e.Body)) :
    ∀ l ∈ calendarLines strip es, noLineBreak l := by
  intro l hl
  simp only [calendarLines, List.mem_append, List.mem_cons, List.mem_singleton,
    List.not_mem_nil, or_false] at hl
  rcases hl with (( rfl | rfl) | hl) | rfl
  · unfold noLineBreak; decide
  · unfold noLineBreak; decide
  · exact eventsLines_noLineBreak strip es h l hl
  · unfold noLineBreak; decide

theorem joinCRLF_calendarLines (strip : String → String) (es : List Event) :
    joinCRLF (calendarLines strip es)
      = "BEGIN:VCALENDAR\r\nVERSION:2.0\r\n" ++ concat (es.map (block strip))
          ++ "END:VCALENDAR\r\n" := by
  simp only [calendarLines, joinCRLF_append, joinCRLF_eventsLines]
  rfl

/-! ## The decoder -/

theorem storeString_err (cur : String) (v : JSON) :
    (storeString cur v).2.isSome = !admitsString v := by
  cases v <;> rfl

theorem storeBool_err (cur : Bool) (v : JSON) :
    (storeBool cur v).2.isSome = !admitsBool v := by
  cases v <;> rfl

theorem storeInt_err (cur : Int) (v : JSON) :
    (storeInt cur v).2.isSome = !admitsInt v := by
  cases v with
  | int i =>
    by_cases hi : -9223372036854775808 ≤ i ∧ i ≤ 9223372036854775807
    · simp [storeInt, admitsInt, hi]
    · simp [storeInt, admitsInt, hi]
  | _ => rfl

theorem saveError_isSome (a b : Option Error) :
    (saveError a b).isSome = (a.isSome || b.isSome) := by
  cases a <;> simp [saveError]

theorem find_agree {σ : Type} (fields : List (Field σ)) (shape : Shape) (h : Agree fields shape)
    (p : String → Bool) :
    (fields.find? (fun f => p f.name) = none ∧ shape.find? (fun q => p q.1) = none)
    ∨ ∃ f q, fields.find? (fun f => p f.name) = some f ∧ shape.find? (fun q => p q.1) = some q
        ∧ ∀ cur v, (f.store cur v).2.isSome = !q.2 v := by
  unfold Agree at h
  induction h with
  | nil => left; simp
  | @cons f q fs qs hfq _ ih =>
    by_cases hp : p f.name = true
    · right
      refine ⟨f, q, ?_, ?_, hfq.2⟩
      · simp [List.find?, hp]
      · have : p q.1 = true := by rw [← hfq.1]; exact hp
        simp [List.find?, this]
    · have hq : ¬ p q.1 = true := by rw [← hfq.1]; exact hp
      simp only [List.find?, hp, hq]
      exact ih

theorem findField_agree {σ : Type} (fields : List (Field σ)) (shape : Shape)
    (h : Agree fields shape) (key : String) :
    (findField fields key = none ∧ shape.lookup key = none)
    ∨ ∃ f ok, findField fields key = some f ∧ shape.lookup key = some ok
        ∧ ∀ cur v, (f.store cur v).2.isSome = !ok v := by
  unfold findField Shape.lookup
  rcases find_agree fields shape h (fun n => n == key) with ⟨h1, h2⟩ | ⟨f, q, h1, h2, h3⟩
  · rw [h1, h2]
    rcases find_agree fields shape h (fun n => equalFold n key) with ⟨h1, h2⟩ | ⟨f, q, h1, h2, h3⟩
    · left; simp [h1, h2]
    · right; exact ⟨f, q.2, by simp [h1], by simp [h2], h3⟩
  · right; exact ⟨f, q.2, by simp [h1], by simp [h2], h3⟩

theorem storeStruct_fold_err {σ : Type} (fields : List (Field σ)) (shape : Shape)
    (h : Agree fields shape) (members : List (String × JSON)) (cur : σ) (e : Option Error) :
    (members.foldl (fun acc kv =>
      match findField fields kv.1 with
      | none => acc
      | some f => let r := f.store acc.1 kv.2; (r.1, saveError acc.2 r.2)) (cur, e)).2.isSome
      = (e.isSome || members.any shape.rejects) := by
  induction members generalizing cur e with
  | nil => simp
  | cons kv ms ih =>
    simp only [List.foldl_cons, List.any_cons]
    rcases findField_agree fields shape h kv.1 with ⟨h1, h2⟩ | ⟨f, ok, h1, h2, h3⟩
    · rw [h1]
      simp only [ih, Shape.rejects, h2, Bool.false_or]
    · rw [h1]
      simp only [ih, Shape.rejects, h2, saveError_isSome, h3, Bool.or_assoc]

theorem storeStruct_err {σ : Type} (fields : List (Field σ)) (shape : Shape)
    (h : Agree fields shape) (goType : String) (cur : σ) (v : JSON) :
    (storeStruct fields goType cur v).2.isSome = !admitsStruct shape v := by
  cases v with
  | obj members =>
    have key := storeStruct_fold_err fields shape h members cur none
    simp only [Option.isSome_none, Bool.false_or] at key
    simp only [storeStruct, admitsStruct, Bool.not_not]
    exact key
  | _ => rfl

theorem storeSlice_fold_err {α : Type} (rs : List (α × Option Error)) (e : Option Error) :
    (rs.foldl (fun saved r => saveError saved r.2) e).isSome
      = (e.isSome || rs.any (fun r => r.2.isSome)) := by
  induction rs generalizing e with
  | nil => simp
  | cons r rs ih => simp [ih, saveError_isSome, Bool.or_assoc]

theorem storeElems_any_err {α : Type} (zero : α) (store : α → JSON → α × Option Error)
    (elem : JSON → Bool) (h : ∀ cur v, (store cur v).2.isSome = !elem v)
    (elems : List JSON) (backing : List α) :
    (storeElems zero store backing elems).any (fun r => r.2.isSome) = !elems.all elem := by
  induction elems generalizing backing with
  | nil => cases backing <;> simp [storeElems]
  | cons x xs ih =>
    cases backing with
    | nil => simp [storeElems, h, ih]
    | cons b bs => simp [storeElems, h, ih]

theorem storeElems_fresh {α : Type} (zero : α) (store : α → JSON → α × Option Error)
    (elems : List JSON) : storeElems zero store [] elems = elems.map (store zero) := by
  induction elems with
  | nil => rfl
  | cons x xs ih => simp [storeElems, ih]

theorem storeSlice_err {α : Type} (zero : α) (store : α → JSON → α × Option Error)
    (elem : JSON → Bool) (h : ∀ cur v, (store cur v).2.isSome = !elem v)
    (goType : String) (cur : List α × List α) (v : JSON) :
    (storeSlice zero store goType cur v).2.isSome = !admitsSlice elem v := by
  cases v with
  | arr elems =>
    cases elems with
    | nil => rfl
    | cons x xs =>
      simp only [storeSlice, admitsSlice, storeSlice_fold_err, Option.isSome_none,
        Bool.false_or]
      exact storeElems_any_err zero store elem h (x :: xs) _
  | _ => rfl

/-- An array stored in a nil slice: every element is decoded into a zero value,
in the order of the array. -/
theorem storeSlice_fresh {α : Type} (zero : α) (store : α → JSON → α × Option Error)
    (goType : String) (elems : List JSON) :
    (storeSlice zero store goType ([], []) (.arr elems)).1.1
      = elems.map (fun x => (store zero x).1) := by
  cases elems with
  | nil => rfl
  | cons x xs =>
    simp only [storeSlice, List.append_nil, storeElems_fresh, List.map_map]
    rfl

theorem agree_cons {σ α : Type} (name : String) (get : σ → α) (set : σ → α → σ)
    (store : α → JSON → α × Option Error) (ok : JSON → Bool)
    (h : ∀ cur v, (store cur v).2.isSome = !ok v)
    (fields : List (Field σ)) (shape : Shape) (hrest : Agree fields shape) :
    Agree (Field.of name get set store :: fields) ((name, ok) :: shape) :=
  List.Forall₂.cons ⟨rfl, fun cur v => h (get cur) v⟩ hrest

theorem agree_nil {σ : Type} : Agree ([] : List (Field σ)) [] := List.Forall₂.nil

theorem agree_Author : Agree Author.fields Author.shape := by
  unfold Author.fields Author.shape
  repeat first
    | exact agree_nil
    | apply agree_cons _ _ _ _ _ storeString_err
    | apply agree_cons _ _ _ _ _ storeInt_err
    | apply agree_cons _ _ _ _ _ storeBool_err

theorem agree_StructuredContent : Agree StructuredContent.fields StructuredContent.shape := by
  unfold StructuredContent.fields StructuredContent.shape
  repeat first
    | exact agree_nil
    | apply agree_cons _ _ _ _ _ storeString_err
    | apply agree_cons _ _ _ _ _ storeInt_err

theorem agree_Items : Agree Items.fields Items.shape := agree_nil

theorem agree_Event : Agree Event.fields Event.shape := by
  unfold Event.fields Event.shape
  repeat first
    | exact agree_nil
    | apply agree_cons _ _ _ _ _ storeString_err
    | apply agree_cons _ _ _ _ _ storeInt_err
    | apply agree_cons _ _ _ _ _ (storeStruct_err _ _ agree_Author _)
    | apply agree_cons _ _ _ _ _ (storeStruct_err _ _ agree_StructuredContent _)
    | apply agree_cons _ _ _ _ _
        (storeSlice_err _ _ _ (storeStruct_err _ _ agree_Items _) _)

theorem agree_Upcoming : Agree Upcoming.fields Upcoming.shape := by
  unfold Upcoming.fields Upcoming.shape
  apply agree_cons _ _ _ _ _ (storeSlice_err _ _ _ (storeStruct_err _ _ agree_Event _) _)
  exact agree_nil

theorem findField_none {σ : Type} (fields : List (Field σ)) (key : String)
    (h : ∀ f ∈ fields, selects f.name key = false) : findField fields key = none := by
  have h1 : fields.find? (fun f => f.name == key) = none := by
    rw [List.find?_eq_none]
    intro f hf
    have := h f hf
    simp only [selects, Bool.or_eq_false_iff] at this
    simp [this.1]
  have h2 : fields.find? (fun f => equalFold f.name key) = none := by
    rw [List.find?_eq_none]
    intro f hf
    have := h f hf
    simp only [selects, Bool.or_eq_false_iff] at this
    simp [this.2]
  simp only [findField, h1, h2]

/-- The members that select no field leave the struct alone. -/
theorem storeStruct_skip {σ : Type} (fields : List (Field σ)) (goType : String) (cur : σ)
    (members : List (String × JSON)) (h : ∀ kv ∈ members, findField fields kv.1 = none) :
    storeStruct fields goType cur (.obj members) = (cur, none) := by
  simp only [storeStruct]
  induction members with
  | nil => rfl
  | cons kv ms ih =>
    simp only [List.foldl_cons, h kv (List.mem_cons_self _ _)]
    exact ih (fun x hx => h x (List.mem_cons_of_mem _ hx))

theorem nestedWithin_nest (n : Nat) (j : JSON) (h : JSON.nestedWithin 0 j = false) :
    JSON.nestedWithin n (nest n j) = false := by
  have key : ∀ (k m : Nat) (x : JSON), JSON.nestedWithin m x = false →
      JSON.nestedWithin (m + k) (nest k x) = false := by
    intro k
    induction k with
    | zero => intro m x hx; simpa [nest] using hx
    | succ k ih =>
      intro m x hx
      have hx2 : JSON.nestedWithin (m + 1) (.arr [x]) = false := by
        simp [JSON.nestedWithin, hx]
      have := ih (m + 1) (.arr [x]) hx2
      rw [show m + (k + 1) = m + 1 + k by omega]
      exact this
  simpa using key n 0 j h

/-- `Unmarshal` reports an error exactly on the texts that are not JSON, on
the documents nested deeper than the limit, and on the documents that hold a
value of another JSON type than the declared one. -/
theorem Unmarshal_err (data : Body) (w : Upcoming) :
    (Unmarshal data w).2.isSome =
      match data with
      | .malformed _ => true
      | .document j => !j.nestedWithin maxNestingDepth || !Upcoming.admits j := by
  cases data with
  | malformed msg => rfl
  | document j =>
    simp only [Unmarshal]
    cases hd : j.nestedWithin maxNestingDepth with
    | true =>
      simp only [if_true, Bool.not_true, Bool.false_or]
      exact storeStruct_err _ _ agree_Upcoming _ _ _
    | false => rfl

theorem Unmarshal_too_deep (j : JSON) (w : Upcoming)
    (h : j.nestedWithin maxNestingDepth = false) :
    Unmarshal (.document j) w = (w, some (.malformed "exceeded max depth")) := by
  simp [Unmarshal, h]

theorem Unmarshal_no_upcoming (members : List (String × JSON)) (w : Upcoming)
    (hd : (JSON.obj members).nestedWithin maxNestingDepth = true)
    (h : ∀ kv ∈ members, selects "upcoming" kv.1 = false) :
    Unmarshal (.document (.obj members)) w = (w, none) := by
  simp only [Unmarshal, hd, if_true]
  apply storeStruct_skip
  intro kv hkv
  apply findField_none
  intro f hf
  simp only [Upcoming.fields, List.mem_singleton] at hf
  subst hf
  exact h kv hkv

theorem Unmarshal_one_array (elems : List JSON)
    (hd : (JSON.obj [("upcoming", .arr elems)]).nestedWithin maxNestingDepth = true) :
    (Unmarshal (.document (.obj [("upcoming", .arr elems)])) {}).1.Events
      = elems.map (fun x => (storeStruct Event.fields "main.Event" {} x).1) := by
  simp only [Unmarshal, hd, if_true]
  simp only [storeStruct, List.foldl_cons, List.foldl_nil, findField, Upcoming.fields,
    Field.of, List.find?, beq_self_eq_true]
  exact storeSlice_fresh _ _ _ elems


theorem nested_object_too_deep (n : Nat) :
    (JSON.obj [("x", nest (n + 1) .null)]).nestedWithin (n + 1) = false := by
  have h := nestedWithin_nest n (.arr [.null]) rfl
  have e : nest (n + 1) .null = nest n (.arr [.null]) := rfl
  rw [e]
  simp [JSON.nestedWithin, h]

/-- The document `{"x": [[ ... ]]}` with 10000 arrays one inside the other is
nested deeper than the limit. -/
theorem nested_too_deep :
    (JSON.obj [("x", nest 10000 .null)]).nestedWithin maxNestingDepth = false :=
  nested_object_too_deep 9999

/-- A repeated member is decoded in place: the element of the second array is
stored over the element of the first, and keeps the title it does not name. -/
theorem Unmarshal_repeated_member :
    (Unmarshal (.document (.obj
      [ ("upcoming", .arr [.obj [("title", .str "T")]]),
        ("upcoming", .arr [.obj []]) ])) {}).1.Events.map (·.Title) = ["T"] := by
  decide

/-- A shorter array leaves the rest of the backing array behind, and a longer
array that follows is decoded over it. -/
theorem Unmarshal_backing_array :
    (Unmarshal (.document (.obj
      [ ("upcoming", .arr [.obj [("title", .str "A")], .obj [("title", .str "B")]]),
        ("upcoming", .arr [.obj []]),
        ("upcoming", .arr [.obj [], .obj [], .obj []]) ])) {}).1.Events.map (·.Title)
      = ["A", "B", ""] := by
  decide

/-- The error for a number that does not fit an `int` names the literal. -/
theorem storeInt_payload :
    (storeInt 0 (.float "1.5")).2 = some (.unmarshalType "number 1.5" "int")
    ∧ (storeInt 0 (.int 9223372036854775808)).2
        = some (.unmarshalType "number 9223372036854775808" "int")
    ∧ (storeString "" (.int 5)).2 = some (.unmarshalType "number" "string") := by
  decide

/-! ## The calendar of the specification is unambiguous -/

theorem daysBeforeYear_succ (y : Int) :
    daysBeforeYear (y + 1) = daysBeforeYear y + yearLength y := by
  unfold daysBeforeYear leapYearsBefore yearLength leapYear
  split
  · next h => have := of_decide_eq_true h; push_cast; omega
  · next h =>
    have : ¬ (y % 4 = 0 ∧ (y % 100 ≠ 0 ∨ y % 400 = 0)) := fun hp => h (decide_eq_true hp)
    push_cast; omega

theorem daysBeforeYear_mono (a b : Int) (h : a ≤ b) : daysBeforeYear a ≤ daysBeforeYear b := by
  unfold daysBeforeYear leapYearsBefore
  omega

set_option maxRecDepth 100000 in
theorem daysBeforeMonth_step : ∀ leap : Bool, ∀ m, m < 13 → ∀ n, n < 13 → 1 ≤ m → m < n →
    daysBeforeMonth leap m + monthLength leap m ≤ daysBeforeMonth leap n := by
  decide

set_option maxRecDepth 100000 in
theorem daysBeforeMonth_year : ∀ leap : Bool, ∀ m, m < 13 → 1 ≤ m →
    daysBeforeMonth leap m + monthLength leap m ≤ (if leap then 366 else 365) := by
  decide

theorem Civil.unixSeconds_inj (c1 c2 : Civil) (h1 : c1.valid) (h2 : c2.valid)
    (h : c1.unixSeconds = c2.unixSeconds) : c1 = c2 := by
  obtain ⟨y1, m1, d1, hh1, mi1, s1⟩ := c1
  obtain ⟨y2, m2, d2, hh2, mi2, s2⟩ := c2
  simp only [Civil.valid] at h1 h2
  simp only [Civil.unixSeconds] at h
  obtain ⟨a1, a2, a3, a4, a5, a6, a7⟩ := h1
  obtain ⟨b1, b2, b3, b4, b5, b6, b7⟩ := h2
  have e1 := daysBeforeMonth_year (leapYear y1) m1 (by omega) a1
  have e2 := daysBeforeMonth_year (leapYear y2) m2 (by omega) b1
  have f1 := daysBeforeYear_succ y1
  have f2 := daysBeforeYear_succ y2
  unfold yearLength at f1 f2
  have hy : y1 = y2 := by
    rcases lt_trichotomy y1 y2 with hlt | heq | hgt
    · have := daysBeforeYear_mono (y1 + 1) y2 (by omega)
      split at f1 <;> simp_all <;> omega
    · exact heq
    · have := daysBeforeYear_mono (y2 + 1) y1 (by omega)
      split at f2 <;> simp_all <;> omega
  subst hy
  have hm : m1 = m2 := by
    rcases lt_trichotomy m1 m2 with hlt | heq | hgt
    · have := daysBeforeMonth_step (leapYear y1) m1 (by omega) m2 (by omega) a1 hlt
      omega
    · exact heq
    · have := daysBeforeMonth_step (leapYear y1) m2 (by omega) m1 (by omega) b1 hgt
      omega
  subst hm
  have hd : d1 = d2 := by omega
  subst hd
  have : hh1 = hh2 ∧ mi1 = mi2 ∧ s1 = s2 := by omega
  obtain ⟨rfl, rfl, rfl⟩ := this
  rfl

/-! ## The claims -/

/-- C1: every turn of the render loop of `fetchEvents` appends exactly seven
CRLF-terminated lines, `BEGIN:VEVENT`, `UID:` with the id, `DTSTART:` and
`DTEND:` with the formatted timestamps, `SUMMARY:` with the title copied as it
is, `DESCRIPTION:` with the stripped body, `END:VEVENT`; after a successful
decode `fetchEvents` returns no error; an empty title gives the line `SUMMARY:`;
and the event of the spec gives the block of the spec, when the stripper turns
`<p>Join us</p>` into `Join us`. -/
theorem renderEvent_seven_lines (strip : String → String) :
    (∀ (sVal : String) (e : Event), renderEvent strip sVal e = sVal ++ joinCRLF
        [ "BEGIN:VEVENT", "UID:" ++ e.Id, "DTSTART:" ++ to8601 e.StartDate,
          "DTEND:" ++ to8601 e.EndDate, "SUMMARY:" ++ e.Title,
          "DESCRIPTION:" ++ strip e.Body, "END:VEVENT" ])
    ∧ (∀ (world : World) (url : String) (body : Body) (w : Upcoming),
        world.net world.src = .ok body → Unmarshal body {} = (w, none) →
        (fetchEvents strip world url).err = none)
    ∧ (∀ (sVal : String) (e : Event), e.Title = "" → renderEvent strip sVal e = sVal ++ joinCRLF
        [ "BEGIN:VEVENT", "UID:" ++ e.Id, "DTSTART:" ++ to8601 e.StartDate,
          "DTEND:" ++ to8601 e.EndDate, "SUMMARY:", "DESCRIPTION:" ++ strip e.Body,
          "END:VEVENT" ])
    ∧ (strip "<p>Join us</p>" = "Join us" →
        renderEvent strip "" meetup
        = "BEGIN:VEVENT\r\nUID:abc\r\nDTSTART:20231114T221320Z\r\nDTEND:20231114T231320Z\r\nSUMMARY:Meetup\r\nDESCRIPTION:Join us\r\nEND:VEVENT\r\n") := by
  refine ⟨fun sVal e => renderEvent_eq strip sVal e, ?_, ?_, ?_⟩
  · intro world url body w hn hu
    rw [fetchEvents_ok strip world url body w hn hu]
  · intro sVal e he
    rw [renderEvent_eq, block, eventLines, he]
    rfl
  · intro hs
    rw [renderEvent_eq, block, eventLines]
    simp only [meetup, hs]
    rfl

/-- C1, witness: the block of the event of the spec, with the stripper modelled from the spec. -/
theorem renderEvent_seven_lines_witness :
    stripTags "<p>Join us</p>" = "Join us"
    ∧ renderEvent stripTags "" meetup
      = "BEGIN:VEVENT\r\nUID:abc\r\nDTSTART:20231114T221320Z\r\nDTEND:20231114T231320Z\r\nSUMMARY:Meetup\r\nDESCRIPTION:Join us\r\nEND:VEVENT\r\n" :=
  ⟨by decide, (renderEvent_seven_lines stripTags).2.2.2 (by decide)⟩

/-- C2: after a successful decode the text is the two header lines, the blocks
of the events in the order of the feed, and the closing line; hence the block
of an event ends where the block of the next event starts, and no event is
dropped, duplicated or moved. -/
theorem fetchEvents_feed_order (strip : String → String) (world : World) (url : String)
    (body : Body) (w : Upcoming) (hn : world.net world.src = .ok body)
    (hu : Unmarshal body {} = (w, none)) :
    (fetchEvents strip world url).val
      = "BEGIN:VCALENDAR\r\nVERSION:2.0\r\n" ++ concat (w.Events.map (block strip))
          ++ "END:VCALENDAR\r\n"
    ∧ ∀ (pre : List Event) (e1 e2 : Event) (post : List Event),
        w.Events = pre ++ e1 :: e2 :: post →
        (fetchEvents strip world url).val
          = ("BEGIN:VCALENDAR\r\nVERSION:2.0\r\n" ++ concat (pre.map (block strip)))
            ++ block strip e1 ++ block strip e2
            ++ (concat (post.map (block strip)) ++ "END:VCALENDAR\r\n") := by
  rw [fetchEvents_ok strip world url body w hn hu]
  refine ⟨rfl, ?_⟩
  intro pre e1 e2 post he
  simp only [he, List.map_append, List.map_cons, concat_append, concat, String.append_assoc]

/-- C2, witness: a feed of two events, the second with the smaller timestamps. -/
theorem fetchEvents_feed_order_witness :
    (fetchEvents stripTags
      ⟨"http://localhost/events/index.txt", fun _ => .ok (.document (.obj [("upcoming", .arr
        [ .obj [("id", .str "b"), ("startDate", .int 2000), ("title", .str "second")],
          .obj [("id", .str "a"), ("startDate", .int 1000), ("title", .str "first")] ])]))⟩
      "u").val
    = "BEGIN:VCALENDAR\r\nVERSION:2.0\r\n"
      ++ concat [block stripTags secondEvent, block stripTags firstEvent]
      ++ "END:VCALENDAR\r\n" :=
  (fetchEvents_feed_order stripTags _ "u" _ { Events := [secondEvent, firstEvent] } rfl (by decide)).1

/-- C3, as stated, fails: 253402300800000 ms is 10000-01-01T00:00:00Z, and
`to8601` writes the year with five digits, so that its result is not the
rendering of any date in the layout `YYYYMMDDTHHMMSSZ`. -/
theorem to8601_year_10000 :
    isInt64 253402300800000
    ∧ (Unix (Int.tdiv 253402300800000 1000)).civil = ⟨10000, 1, 1, 0, 0, 0⟩
    ∧ to8601 253402300800000 = "100000101T000000Z"
    ∧ ¬ ∃ c : Civil, to8601 253402300800000 = layout c := by
  refine ⟨by decide, by decide, by decide, ?_⟩
  rintro ⟨c, hc⟩
  have h1 := congrArg String.length hc
  rw [layout_length] at h1
  revert h1
  decide

/-- C3 (amended): for every 64-bit `t`, the fields `to8601(t)` formats are the
one valid date and time of day of the proleptic Gregorian calendar that lies
`s` seconds after 1970-01-01T00:00:00Z, where `s` is `t / 1000` truncated
toward zero, without any offset; the year lies in 0..9999 exactly when
`-62167219200999 ≤ t ≤ 253402300799999`, and for these `t` the result is the
rendering of that date and time in the layout `YYYYMMDDTHHMMSSZ`. -/
theorem to8601_utc_layout (t : Int) (ht : isInt64 t) :
    ((Unix (t.tdiv 1000)).civil.valid ∧ (Unix (t.tdiv 1000)).civil.unixSeconds = t.tdiv 1000)
    ∧ (∀ c : Civil, c.valid → c.unixSeconds = t.tdiv 1000 → c = (Unix (t.tdiv 1000)).civil)
    ∧ ((0 ≤ (Unix (t.tdiv 1000)).civil.year ∧ (Unix (t.tdiv 1000)).civil.year ≤ 9999)
        ↔ fourDigitYear t)
    ∧ (fourDigitYear t → to8601 t = layout (Unix (t.tdiv 1000)).civil) := by
  obtain ⟨b1, b2⟩ := tdiv_bounds t ht
  obtain ⟨hv, hs, hy0, hy1⟩ := civil_spec (t.tdiv 1000) b1 b2
  have hr : (0 ≤ (Unix (t.tdiv 1000)).civil.year ∧ (Unix (t.tdiv 1000)).civil.year ≤ 9999)
      ↔ fourDigitYear t := by
    rw [hy0, hy1]; exact tdiv_range t
  refine ⟨⟨hv, hs⟩, ?_, hr, ?_⟩
  · intro c hc hcs
    exact Civil.unixSeconds_inj _ _ hc hv (hcs.trans hs.symm)
  · intro hf
    have hy := hr.mpr hf
    exact strftimeFormat_layout _ hv hy.1 hy.2

/-- C3, witness: the three timestamps of the spec. -/
theorem to8601_utc_layout_witness :
    to8601 1700000000000 = "20231114T221320Z"
    ∧ to8601 1700003600000 = "20231114T231320Z"
    ∧ to8601 0 = "19700101T000000Z"
    ∧ (Unix (Int.tdiv 1700000000000 1000)).civil = ⟨2023, 11, 14, 22, 13, 20⟩ :=
  ⟨((to8601_utc_layout 1700000000000 (by decide)).2.2.2 (by decide)).trans (by decide),
   ((to8601_utc_layout 1700003600000 (by decide)).2.2.2 (by decide)).trans (by decide),
   ((to8601_utc_layout 0 (by decide)).2.2.2 (by decide)).trans (by decide),
   ((to8601_utc_layout 1700000000000 (by decide)).2.1 ⟨2023, 11, 14, 22, 13, 20⟩
      (by decide) (by decide))⟩

/-- C4, as stated, fails: -62167219201000 ms is the last second of the year
before year 0, and `to8601` returns 17 characters, the first a minus sign. -/
theorem to8601_before_year_zero :
    isInt64 (-62167219201000)
    ∧ to8601 (-62167219201000) = "-00011231T235959Z"
    ∧ (to8601 (-62167219201000)).length = 17
    ∧ matchesLayout (to8601 (-62167219201000)) = false := by
  decide

/-- C4 (amended): for the 64-bit `t` with `-62167219200999 ≤ t ≤ 253402300799999`
the result of `to8601` has exactly 16 characters and matches
`YYYYMMDDTHHMMSSZ`: eight digits, `T`, six digits, `Z`; for every other 64-bit
`t` it has 17 characters or more. -/
theorem to8601_sixteen_chars (t : Int) (ht : isInt64 t) :
    (fourDigitYear t → (to8601 t).length = 16 ∧ matchesLayout (to8601 t) = true)
    ∧ (¬ fourDigitYear t → 17 ≤ (to8601 t).length) := by
  obtain ⟨b1, b2⟩ := tdiv_bounds t ht
  obtain ⟨hv, _, hy0, hy1⟩ := civil_spec (t.tdiv 1000) b1 b2
  have hr := tdiv_range t
  constructor
  · intro hf
    have hy : 0 ≤ (Unix (t.tdiv 1000)).civil.year ∧ (Unix (t.tdiv 1000)).civil.year ≤ 9999 := by
      rw [hy0, hy1]; exact hr.mpr hf
    have e : to8601 t = layout (Unix (t.tdiv 1000)).civil :=
      strftimeFormat_layout _ hv hy.1 hy.2
    rw [e]
    exact ⟨layout_length _, matchesLayout_layout _⟩
  · intro hf
    have hy : (Unix (t.tdiv 1000)).civil.year < 0 ∨ 9999 < (Unix (t.tdiv 1000)).civil.year := by
      by_contra hc
      apply hf
      apply hr.mp
      rw [← hy0, ← hy1]
      omega
    exact strftimeFormat_long _ hv hy

/-- C4, witness: the two ends of the range and the second after it. -/
theorem to8601_sixteen_chars_witness :
    ((to8601 253402300799999).length = 16 ∧ matchesLayout (to8601 253402300799999) = true)
    ∧ ((to8601 (-62167219200999)).length = 16
        ∧ matchesLayout (to8601 (-62167219200999)) = true)
    ∧ 17 ≤ (to8601 253402300800000).length :=
  ⟨(to8601_sixteen_chars 253402300799999 (by decide)).1 (by decide),
   (to8601_sixteen_chars (-62167219200999) (by decide)).1 (by decide),
   (to8601_sixteen_chars 253402300800000 (by decide)).2 (by decide)⟩

/-- C5: `to8601` does not look at the part of `t` below the second: with `mod`
the remainder of the truncated division, `to8601(t) = to8601(t - t mod 1000)`
for every integer `t`, negative ones included; the subtraction stays within 64
bits; and two timestamps with the same truncated quotient by 1000 give the same
string. -/
theorem to8601_ignores_millis :
    (∀ t : Int, to8601 t = to8601 (t - t.tmod 1000))
    ∧ (∀ t : Int, isInt64 t → isInt64 (t - t.tmod 1000))
    ∧ (∀ t1 t2 : Int, t1.tdiv 1000 = t2.tdiv 1000 → to8601 t1 = to8601 t2) := by
  have key : ∀ t : Int, t - t.tmod 1000 = 1000 * t.tdiv 1000 := by
    intro t
    have := Int.tmod_add_tdiv t 1000
    omega
  refine ⟨?_, ?_, ?_⟩
  · intro t
    have e : (t - t.tmod 1000).tdiv 1000 = t.tdiv 1000 := by
      rw [key, Int.mul_tdiv_cancel_left _ (by decide)]
    simp only [to8601, e]
  · intro t ht
    rw [key]
    unfold isInt64 at *
    rw [tdiv_thousand]
    split <;> omega
  · intro t1 t2 h
    simp only [to8601, h]

/-- C5, witness: a negative timestamp and a positive one, with their truncations. -/
theorem to8601_ignores_millis_witness :
    to8601 (-1999) = to8601 (-1000) ∧ to8601 1700000000999 = to8601 1700000000000 :=
  ⟨to8601_ignores_millis.2.2 (-1999) (-1000) (by decide),
   to8601_ignores_millis.2.2 1700000000999 1700000000000 (by decide)⟩

/-- C6: the response of the handler. Without a `url` value, or with an empty
one, the status is 405, the body is empty and nothing is fetched; with a
non-empty one the status is 405 and the body empty when `fetchEvents` returns
an error, and the status is 200 and the body the calendar text when it returns
none; no other response exists; and `fetchEvents` returns an error exactly
when the request fails, the body cannot be read, or the bytes do not decode. -/
theorem serve_status_body (strip : String → String) (world : World) (r : Request) :
    (r.FormValue "url" = "" →
        serve strip world r = ⟨405, ""⟩ ∧ (handler strip world {} r).2 = [])
    ∧ (r.FormValue "url" ≠ "" →
        ∀ err, (fetchEvents strip world (r.FormValue "url")).err = some err →
        serve strip world r = ⟨405, ""⟩)
    ∧ (r.FormValue "url" ≠ "" →
        (fetchEvents strip world (r.FormValue "url")).err = none →
        serve strip world r = ⟨200, (fetchEvents strip world (r.FormValue "url")).val⟩)
    ∧ (serve strip world r = ⟨405, ""⟩ ∨ ∃ text, serve strip world r = ⟨200, text⟩)
    ∧ ((fetchEvents strip world (r.FormValue "url")).err ≠ none ↔
        ((∃ e, world.net world.src = .getFailed e) ∨ (∃ e, world.net world.src = .readFailed e)
          ∨ (∃ body, world.net world.src = .ok body ∧ (Unmarshal body {}).2 ≠ none))) := by
  refine ⟨fun h => ⟨serve_no_url strip world r h, by rw [handler_no_url strip world _ r h]⟩,
    fun h err he => serve_err strip world r h err he,
    fun h he => serve_ok strip world r h he, ?_, fetchEvents_err_iff strip world _⟩
  by_cases h : r.FormValue "url" = ""
  · exact Or.inl (serve_no_url strip world r h)
  · cases he : (fetchEvents strip world (r.FormValue "url")).err with
    | none => exact Or.inr ⟨_, serve_ok strip world r h he⟩
    | some err => exact Or.inl (serve_err strip world r h err he)

/-- C6, witness: a request without `url`, one whose upstream bytes are not
JSON, and one whose upstream document holds no event. -/
theorem serve_status_body_witness :
    serve stripTags ⟨"http://localhost/events/index.txt", fun _ => .ok (.document (.obj []))⟩
        ⟨fun _ => []⟩ = ⟨405, ""⟩
    ∧ serve stripTags ⟨"http://localhost/events/index.txt", fun _ => .ok (.malformed "<html>")⟩
        ⟨fun k => if k = "url" then ["x"] else []⟩ = ⟨405, ""⟩
    ∧ serve stripTags ⟨"http://localhost/events/index.txt", fun _ => .ok (.document (.obj []))⟩
        ⟨fun k => if k = "url" then ["x"] else []⟩
      = ⟨200, "BEGIN:VCALENDAR\r\nVERSION:2.0\r\nEND:VCALENDAR\r\n"⟩ :=
  ⟨((serve_status_body stripTags _ ⟨fun _ => []⟩).1 (by decide)).1,
   (serve_status_body stripTags _ ⟨fun k => if k = "url" then ["x"] else []⟩).2.1
      (by decide) (.malformed "<html>") (by decide),
   (serve_status_body stripTags _ ⟨fun k => if k = "url" then ["x"] else []⟩).2.2.1
      (by decide) (by decide)⟩

/-- C7, as stated, fails: the document `{}` has no top-level array field, and
`fetchEvents` returns the calendar without events and no error. -/
theorem fetchEvents_missing_upcoming :
    hasUpcomingArray (.obj []) = false
    ∧ fetchEvents stripTags
        ⟨"http://localhost/events/index.txt", fun _ => .ok (.document (.obj []))⟩ "u"
      = ⟨"BEGIN:VCALENDAR\r\nVERSION:2.0\r\nEND:VCALENDAR\r\n", none,
          ["http://localhost/events/index.txt"]⟩ := by
  decide

/-- C7 (amended): decoding is all or nothing. When the bytes are not a JSON
text, or arrays and objects are nested deeper than 10000 levels, or the
document is not `null` or an object, or at some depth a member that selects a
declared field holds a value of another JSON type than the declared one
(`null` apart), `fetchEvents` returns an error with the empty string, never a
part of a calendar. In every other case it returns no error: missing fields
and unknown members are no errors, and a document in which no member selects
`upcoming` gives the calendar without events. A document whose one member is
`upcoming` with an array gives the blocks of the decoded elements of the
array, one for each, in their order. -/
theorem fetchEvents_decode_strict (strip : String → String) (world : World) (url : String) :
    (∀ msg, world.net world.src = .ok (.malformed msg) →
        fetchEvents strip world url = ⟨"", some (.malformed msg), [world.src]⟩)
    ∧ (∀ j, world.net world.src = .ok (.document j) →
        j.nestedWithin maxNestingDepth = false →
        fetchEvents strip world url
          = ⟨"", some (.malformed "exceeded max depth"), [world.src]⟩)
    ∧ (∀ j, world.net world.src = .ok (.document j) → Upcoming.admits j = false →
        (fetchEvents strip world url).val = "" ∧ (fetchEvents strip world url).err ≠ none)
    ∧ (∀ j, world.net world.src = .ok (.document j) →
        j.nestedWithin maxNestingDepth = true → Upcoming.admits j = true →
        (fetchEvents strip world url).err = none)
    ∧ ((fetchEvents strip world url).err ≠ none → (fetchEvents strip world url).val = "")
    ∧ (∀ members, world.net world.src = .ok (.document (.obj members)) →
        (JSON.obj members).nestedWithin maxNestingDepth = true →
        (∀ kv ∈ members, selects "upcoming" kv.1 = false) →
        fetchEvents strip world url
          = ⟨"BEGIN:VCALENDAR\r\nVERSION:2.0\r\nEND:VCALENDAR\r\n", none, [world.src]⟩)
    ∧ (∀ elems, world.net world.src = .ok (.document (.obj [("upcoming", .arr elems)])) →
        (JSON.obj [("upcoming", .arr elems)]).nestedWithin maxNestingDepth = true →
        Upcoming.admits (.obj [("upcoming", .arr elems)]) = true →
        fetchEvents strip world url
          = ⟨"BEGIN:VCALENDAR\r\nVERSION:2.0\r\n"
              ++ concat (elems.map (fun x =>
                  block strip (storeStruct Event.fields "main.Event" {} x).1))
              ++ "END:VCALENDAR\r\n", none, [world.src]⟩) := by
  refine ⟨?_, ?_, ?_, ?_, ?_, ?_, ?_⟩
  · intro msg hn
    exact fetchEvents_unmarshal_err strip world url _ {} _ hn rfl
  · intro j hn hd
    exact fetchEvents_unmarshal_err strip world url _ {} _ hn (Unmarshal_too_deep j {} hd)
  · intro j hn hj
    have he := Unmarshal_err (.document j) {}
    simp only [hj, Bool.not_false, Bool.or_true] at he
    rcases hu : Unmarshal (.document j) {} with ⟨w, _ | err⟩
    · rw [hu] at he; simp at he
    · rw [fetchEvents_unmarshal_err strip world url _ w err hn hu]
      simp
  · intro j hn hd hj
    have he := Unmarshal_err (.document j) {}
    simp only [hj, hd, Bool.not_true, Bool.or_false] at he
    rcases hu : Unmarshal (.document j) {} with ⟨w, _ | err⟩
    · rw [fetchEvents_ok strip world url _ w hn hu]
    · rw [hu] at he; simp at he
  · intro he
    rcases fetchEvents_cases strip world url with ⟨e, h⟩ | ⟨t, h⟩
    · rw [h]
    · rw [h] at he; exact absurd rfl he
  · intro members hn hd hsel
    rw [fetchEvents_ok strip world url _ {} hn (Unmarshal_no_upcoming members {} hd hsel)]
    rfl
  · intro elems hn hd hj
    have he := Unmarshal_err (.document (.obj [("upcoming", .arr elems)])) {}
    simp only [hj, hd, Bool.not_true, Bool.or_false] at he
    have hv := Unmarshal_one_array elems hd
    rcases hu : Unmarshal (.document (.obj [("upcoming", .arr elems)])) {} with ⟨w, _ | err⟩
    · rw [hu] at hv
      simp only at hv
      rw [fetchEvents_ok strip world url _ w hn hu, hv, List.map_map]
      rfl
    · rw [hu] at he; simp at he

set_option maxRecDepth 100000 in
/-- C7, witness: a number where a string is declared, an array as document,
bytes that are not JSON, a document nested too deep, a document with missing
fields and unknown members, a document without events, and a document with
three events. -/
theorem fetchEvents_decode_strict_witness :
    ((fetchEvents stripTags ⟨"s", fun _ => .ok (.document
        (.obj [("upcoming", .arr [.obj [("title", .int 5)]])]))⟩ "u").val = ""
      ∧ (fetchEvents stripTags ⟨"s", fun _ => .ok (.document
        (.obj [("upcoming", .arr [.obj [("title", .int 5)]])]))⟩ "u").err ≠ none)
    ∧ ((fetchEvents stripTags ⟨"s", fun _ => .ok (.document (.arr []))⟩ "u").val = ""
      ∧ (fetchEvents stripTags ⟨"s", fun _ => .ok (.document (.arr []))⟩ "u").err ≠ none)
    ∧ fetchEvents stripTags ⟨"s", fun _ => .ok (.malformed "<html>")⟩ "u"
      = ⟨"", some (.malformed "<html>"), ["s"]⟩
    ∧ fetchEvents stripTags
        ⟨"s", fun _ => .ok (.document (.obj [("x", nest 10000 .null)]))⟩ "u"
      = ⟨"", some (.malformed "exceeded max depth"), ["s"]⟩
    ∧ (fetchEvents stripTags ⟨"s", fun _ => .ok (.document
        (.obj [("other", .bool true),
               ("UPCOMING", .arr [.obj [("id", .str "a"), ("zzz", .float "1.5")], .null])]))⟩
        "u").err = none
    ∧ fetchEvents stripTags
        ⟨"s", fun _ => .ok (.document (.obj [("other", .arr [.int 1])]))⟩ "u"
      = ⟨"BEGIN:VCALENDAR\r\nVERSION:2.0\r\nEND:VCALENDAR\r\n", none, ["s"]⟩
    ∧ fetchEvents stripTags ⟨"s", fun _ => .ok (.document (.obj [("upcoming", .arr
        [ .obj [("id", .str "1")], .obj [("id", .str "2")], .obj [("id", .str "3")] ])]))⟩ "u"
      = ⟨"BEGIN:VCALENDAR\r\nVERSION:2.0\r\n"
          ++ concat [ block stripTags { Id := "1" }, block stripTags { Id := "2" },
                      block stripTags { Id := "3" } ]
          ++ "END:VCALENDAR\r\n", none, ["s"]⟩ :=
  ⟨(fetchEvents_decode_strict stripTags ⟨"s", _⟩ "u").2.2.1 _ rfl (by decide),
   (fetchEvents_decode_strict stripTags ⟨"s", _⟩ "u").2.2.1 _ rfl (by decide),
   (fetchEvents_decode_strict stripTags ⟨"s", _⟩ "u").1 _ rfl,
   (fetchEvents_decode_strict stripTags ⟨"s", _⟩ "u").2.1 _ rfl nested_too_deep,
   (fetchEvents_decode_strict stripTags ⟨"s", _⟩ "u").2.2.2.1 _ rfl (by decide) (by decide),
   (fetchEvents_decode_strict stripTags ⟨"s", _⟩ "u").2.2.2.2.2.1 _ rfl (by decide)
      (by decide),
   ((fetchEvents_decode_strict stripTags ⟨"s", _⟩ "u").2.2.2.2.2.2 _ rfl (by decide)
      (by decide)).trans (by decide)⟩

/-- C8: the value of the `url` parameter does not reach the fetch: for any
two values `fetchEvents` sends its one GET request to the configured source
and returns the same text and the same error, and two requests with non-empty
values get the same status and the same body. -/
theorem fetchEvents_ignores_url (strip : String → String) (world : World) (u1 u2 : String) :
    fetchEvents strip world u1 = fetchEvents strip world u2
    ∧ (fetchEvents strip world u1).gets = [world.src]
    ∧ ∀ r1 r2 : Request, r1.FormValue "url" = u1 → r2.FormValue "url" = u2 →
        u1 ≠ "" → u2 ≠ "" →
        handler strip world {} r1 = handler strip world {} r2
        ∧ serve strip world r1 = serve strip world r2 := by
  refine ⟨rfl, fetchEvents_gets strip world u1, ?_⟩
  intro r1 r2 h1 h2 n1 n2
  have key : handler strip world {} r1 = handler strip world {} r2 := by
    cases he : (fetchEvents strip world u1).err with
    | none =>
      rw [handler_ok strip world _ r1 (by rw [h1]; exact n1) (by rw [h1]; exact he),
        handler_ok strip world _ r2 (by rw [h2]; exact n2) (by rw [h2]; exact he)]
      rfl
    | some err =>
      rw [handler_err strip world _ r1 (by rw [h1]; exact n1) err (by rw [h1]; exact he),
        handler_err strip world _ r2 (by rw [h2]; exact n2) err (by rw [h2]; exact he)]
      rfl
  exact ⟨key, by simp only [serve, key]⟩

/-- C8, witness: two requests that name different feeds get the same answer. -/
theorem fetchEvents_ignores_url_witness :
    serve stripTags ⟨"http://localhost/events/index.txt", fun u =>
        if u = "http://localhost/events/index.txt" then .ok (.document (.obj []))
        else .getFailed (.transport "no such host")⟩
      ⟨fun _ => ["http://a.example/feed"]⟩
    = serve stripTags ⟨"http://localhost/events/index.txt", fun u =>
        if u = "http://localhost/events/index.txt" then .ok (.document (.obj []))
        else .getFailed (.transport "no such host")⟩
      ⟨fun _ => ["http://b.example/other"]⟩ :=
  ((fetchEvents_ignores_url stripTags _ "http://a.example/feed" "http://b.example/other").2.2
    ⟨fun _ => ["http://a.example/feed"]⟩ ⟨fun _ => ["http://b.example/other"]⟩ rfl rfl
    (by decide) (by decide)).2

/-- C9: a feed that decodes to no event gives exactly the three lines
`BEGIN:VCALENDAR`, `VERSION:2.0`, `END:VCALENDAR`, each with its CRLF, without
a `PRODID` line, and no error. -/
theorem fetchEvents_no_events (strip : String → String) (world : World) (url : String)
    (body : Body) (w : Upcoming) (hn : world.net world.src = .ok body)
    (hu : Unmarshal body {} = (w, none)) (he : w.Events = []) :
    fetchEvents strip world url
      = ⟨"BEGIN:VCALENDAR\r\nVERSION:2.0\r\nEND:VCALENDAR\r\n", none, [world.src]⟩
    ∧ splitCRLF (fetchEvents strip world url).val
      = ["BEGIN:VCALENDAR", "VERSION:2.0", "END:VCALENDAR", ""] := by
  rw [fetchEvents_ok strip world url body w hn hu, he]
  refine ⟨rfl, ?_⟩
  show splitCRLF "BEGIN:VCALENDAR\r\nVERSION:2.0\r\nEND:VCALENDAR\r\n" = _
  decide

/-- C9, witness: the document with an empty array of events. -/
theorem fetchEvents_no_events_witness :
    fetchEvents stripTags
      ⟨"http://localhost/events/index.txt",
        fun _ => .ok (.document (.obj [("upcoming", .arr [])]))⟩ "u"
    = ⟨"BEGIN:VCALENDAR\r\nVERSION:2.0\r\nEND:VCALENDAR\r\n", none,
        ["http://localhost/events/index.txt"]⟩ :=
  (fetchEvents_no_events stripTags ⟨"http://localhost/events/index.txt", _⟩ "u" _ {}
    rfl (by decide) rfl).1

/-- C10: when no id, no title and no stripped body holds a carriage return or
a line feed, the text of `n` events is made of `3 + 7 n` lines, each ended by
CRLF, and splitting it at CRLF gives these lines (and an empty rest); the
first two are `BEGIN:VCALENDAR` and `VERSION:2.0`, the last is `END:VCALENDAR`,
and the lines of the event of index `k` stand at the positions `3 + 7 k` to
`9 + 7 k`, counted from 1, starting with `BEGIN:VEVENT` and ending with
`END:VEVENT`. -/
theorem calendar_line_structure (strip : String → String) (world : World) (url : String)
    (body : Body) (w : Upcoming) (hn : world.net world.src = .ok body)
    (hu : Unmarshal body {} = (w, none))
    (h : ∀ e ∈ w.Events, noLineBreak e.Id ∧ noLineBreak e.Title ∧ noLineBreak (strip e.Body)) :
    (fetchEvents strip world url).val = joinCRLF (calendarLines strip w.Events)
    ∧ splitCRLF (fetchEvents strip world url).val = calendarLines strip w.Events ++ [""]
    ∧ (calendarLines strip w.Events).length = 3 + 7 * w.Events.length
    ∧ (∀ l ∈ calendarLines strip w.Events, noLineBreak l)
    ∧ (calendarLines strip w.Events)[0]? = some "BEGIN:VCALENDAR"
    ∧ (calendarLines strip w.Events)[1]? = some "VERSION:2.0"
    ∧ (calendarLines strip w.Events)[2 + 7 * w.Events.length]? = some "END:VCALENDAR"
    ∧ ∀ (k : Nat) (e : Event), w.Events[k]? = some e →
        (calendarLines strip w.Events)[2 + 7 * k]? = some "BEGIN:VEVENT"
        ∧ (calendarLines strip w.Events)[2 + 7 * k + 1]? = some ("UID:" ++ e.Id)
        ∧ (calendarLines strip w.Events)[2 + 7 * k + 2]?
            = some ("DTSTART:" ++ to8601 e.StartDate)
        ∧ (calendarLines strip w.Events)[2 + 7 * k + 3]? = some ("DTEND:" ++ to8601 e.EndDate)
        ∧ (calendarLines strip w.Events)[2 + 7 * k + 4]? = some ("SUMMARY:" ++ e.Title)
        ∧ (calendarLines strip w.Events)[2 + 7 * k + 5]?
            = some ("DESCRIPTION:" ++ strip e.Body)
        ∧ (calendarLines strip w.Events)[2 + 7 * k + 6]? = some "END:VEVENT" := by
  have hval : (fetchEvents strip world url).val = joinCRLF (calendarLines strip w.Events) := by
    rw [fetchEvents_ok strip world url body w hn hu, joinCRLF_calendarLines]
  have hnb := calendarLines_noLineBreak strip w.Events h
  have hlen := eventsLines_length strip w.Events
  refine ⟨hval, ?_, ?_, hnb, ?_, ?_, ?_, ?_⟩
  · rw [hval]; exact splitCRLF_joinCRLF _ hnb
  · simp only [calendarLines, List.length_append, List.length_cons, List.length_nil, hlen]
    omega
  · simp [calendarLines]
  · simp [calendarLines]
  · simp only [calendarLines]
    rw [List.getElem?_append_right (by simp [hlen]; omega)]
    have e0 : 2 + 7 * w.Events.length
        - (["BEGIN:VCALENDAR", "VERSION:2.0"] ++ eventsLines strip w.Events).length = 0 := by
      simp [hlen]; omega
    rw [e0]; rfl
  · intro k e hk
    have hkl : k < w.Events.length := by
      rcases Nat.lt_or_ge k w.Events.length with hlt | hge
      · exact hlt
      · rw [List.getElem?_eq_none hge] at hk; cases hk
    have idx : ∀ j, j < 7 →
        (calendarLines strip w.Events)[2 + 7 * k + j]? = (eventLines strip e)[j]? := by
      intro j hj
      simp only [calendarLines]
      rw [List.getElem?_append_left (by simp [hlen]; omega)]
      rw [List.getElem?_append_right (by simp; omega)]
      have e2 : 2 + 7 * k + j - ["BEGIN:VCALENDAR", "VERSION:2.0"].length = 7 * k + j := by
        simp; omega
      rw [e2]
      exact eventsLines_getElem strip w.Events k j e hk hj
    refine ⟨?_, ?_, ?_, ?_, ?_, ?_, ?_⟩
    · have := idx 0 (by omega); simpa [eventLines] using this
    · rw [idx 1 (by omega)]; rfl
    · rw [idx 2 (by omega)]; rfl
    · rw [idx 3 (by omega)]; rfl
    · rw [idx 4 (by omega)]; rfl
    · rw [idx 5 (by omega)]; rfl
    · rw [idx 6 (by omega)]; rfl

/-- C10, witness: the ten lines of the calendar of the event of the spec. -/
theorem calendar_line_structure_witness :
    splitCRLF (fetchEvents stripTags
      ⟨"http://localhost/events/index.txt", fun _ => .ok (.document (.obj [("upcoming", .arr
        [ .obj [("id", .str "abc"), ("startDate", .int 1700000000000),
                ("endDate", .int 1700003600000), ("title", .str "Meetup"),
                ("body", .str "<p>Join us</p>")] ])]))⟩ "u").val
    = [ "BEGIN:VCALENDAR", "VERSION:2.0", "BEGIN:VEVENT", "UID:abc",
        "DTSTART:20231114T221320Z", "DTEND:20231114T231320Z", "SUMMARY:Meetup",
        "DESCRIPTION:Join us", "END:VEVENT", "END:VCALENDAR", "" ] :=
  ((calendar_line_structure stripTags ⟨"http://localhost/events/index.txt", _⟩ "u" _
    { Events := [meetup] } rfl (by decide) (by unfold noLineBreak; decide)).2.1).trans
    (by decide)

end Events
